import Mathlib

/-!
Verification of the RSS digest emailer core pipeline.

The definitions below are a shallow embedding of the TypeScript services
of the repository (schedulerService, summaryService, rssService, the
email service, and the in-memory storage). External collaborators
(the cron timer, the feed parser network call, the AI completion call,
JSON parsing of the AI payload, SMTP dispatch, the wall clock) are
modelled as explicit inputs; machine timestamps are naturals or integers
counting milliseconds; JavaScript string truthiness is modelled
explicitly. Each theorem below checks one sentence of the design
document against these definitions.
-/

namespace RssDigest

/-! ## JavaScript-flavoured string helpers -/

/-- Truthiness of an optional string: JavaScript treats `undefined` and
the empty string as falsy. -/
def truthyOptStr : Option String → Bool
  | none => false
  | some s => s ≠ ""

/-- Truthiness of a string (empty is falsy). -/
def truthyStr (s : String) : Bool := s ≠ ""

/-- The JavaScript `a || b` idiom on strings: returns `b` when `a` is empty. -/
def jsOrStr (a b : String) : String := if a = "" then b else a

/-- The JavaScript `a || b` idiom where `a` is an optional string. -/
def jsOrOptStr (a : Option String) (b : String) : String :=
  match a with
  | none => b
  | some s => jsOrStr s b

/-- Drop leading whitespace characters of a character list. -/
def trimLeftChars (l : List Char) : List Char :=
  l.dropWhile (fun c => c.isWhitespace)

/-- JavaScript `String.prototype.trim`: strip whitespace at both ends. -/
def jsTrim (s : String) : String :=
  ⟨trimLeftChars ((trimLeftChars s.data.reverse).reverse)⟩

/-- First position check: does `pat` occur at the head of `l`? Then one
step to the right, and so on; `true` when `pat` occurs anywhere in `l`. -/
def occursIn (pat : List Char) : List Char → Bool
  | [] => pat.isEmpty
  | c :: rest => pat.isPrefixOf (c :: rest) || occursIn pat rest

/-- Substring containment on strings. -/
def containsSubstr (s pat : String) : Bool := occursIn pat.data s.data

/-- Case-insensitive substring containment; models a case-insensitive
regular-expression test for a fixed literal pattern. -/
def containsSubstrCI (s pat : String) : Bool :=
  occursIn (pat.data.map Char.toLower) (s.data.map Char.toLower)

/-! ## Scheduler (schedulerService.ts) -/

/-- Schedule settings record (shared/schema `scheduleSettings` row,
timestamps in epoch milliseconds). -/
structure ScheduleSettings where
  isEnabled : Bool
  frequencyHours : Nat
  nextRun : Option Nat
  lastRun : Option Nat
  deriving Repr, DecidableEq

/-- Activity-log entry as written by the services. -/
structure LogEntry where
  type : String
  message : String
  level : String
  deriving Repr, DecidableEq

/-- `SchedulerService.getCronExpression`: maps a frequency in hours to
the cron cadence string; unsupported values default to every 4 hours. -/
def getCronExpression (hours : Nat) : String :=
  if hours = 1 then "0 * * * *"
  else if hours = 2 then "0 */2 * * *"
  else if hours = 4 then "0 */4 * * *"
  else if hours = 6 then "0 */6 * * *"
  else if hours = 8 then "0 */8 * * *"
  else if hours = 12 then "0 */12 * * *"
  else if hours = 24 then "0 0 * * *"
  else "0 */4 * * *"

/-- `SchedulerService.getNextRunTime`: now + hours in milliseconds. -/
def getNextRunTime (now hours : Nat) : Nat :=
  now + hours * 60 * 60 * 1000

/-- Result of `SchedulerService.updateSchedule`: the stored settings
after the call, the cron expression armed (none when the scheduler is
left disarmed), and the log entries written. -/
structure UpdateScheduleResult where
  settings : Option ScheduleSettings
  armedCron : Option String
  logs : List LogEntry
  deriving Repr, DecidableEq

/-- `SchedulerService.updateSchedule`: stops any previous task; when
settings are absent or disabled it logs and leaves no task armed;
otherwise it arms a cron task for the frequency and stores
`nextRun = now + frequency`. -/
def updateSchedule (settings : Option ScheduleSettings) (now : Nat) :
    UpdateScheduleResult :=
  match settings with
  | none =>
      { settings := none, armedCron := none
        logs := [⟨"info", "Scheduler disabled", "info"⟩] }
  | some s =>
      if s.isEnabled then
        let cron := getCronExpression s.frequencyHours
        let nr := getNextRunTime now s.frequencyHours
        { settings := some { s with nextRun := some nr }
          armedCron := some cron
          logs := [⟨"info", "Scheduler updated", "info"⟩] }
      else
        { settings := some s, armedCron := none
          logs := [⟨"info", "Scheduler disabled", "info"⟩] }

/-- Outcome of `summaryService.generateSummary` as seen by the
scheduler: a structured success with the new summary id, a structured
failure, or a thrown exception. -/
inductive SummaryCallOutcome where
  | ok (summaryId : String)
  | fail (err : String)
  | thrown (msg : String)
  deriving Repr, DecidableEq

/-- Outcome of `emailService.sendSummaryEmail` as seen by the
scheduler. -/
inductive EmailCallOutcome where
  | ok
  | fail (err : String)
  | thrown (msg : String)
  deriving Repr, DecidableEq

/-- Result of one `runScheduledTask` invocation: the `isRunning` flag
after the call, the stored schedule settings after the call, and the
log entries written. -/
structure ScheduledRunResult where
  isRunning : Bool
  settings : Option ScheduleSettings
  logs : List LogEntry
  deriving Repr, DecidableEq

/-- `SchedulerService.runScheduledTask`. When a run is already in
progress it only logs a skip notice. Otherwise it sets the lock, stores
`lastRun = now` and `nextRun = now + frequency` (when settings exist),
runs the pipeline, logs the outcome (a thrown exception is caught at
the outermost level), and the `finally` block clears the lock. -/
def runScheduledTask (running : Bool) (settings : Option ScheduleSettings)
    (now : Nat) (sres : SummaryCallOutcome) (eres : EmailCallOutcome) :
    ScheduledRunResult :=
  if running then
    { isRunning := true, settings := settings
      logs := [⟨"info", "Scheduled task skipped - previous task still running", "info"⟩] }
  else
    let settings2 : Option ScheduleSettings :=
      match settings with
      | none => none
      | some s =>
          some { s with lastRun := some now
                        nextRun := some (getNextRunTime now s.frequencyHours) }
    let startLog : LogEntry := ⟨"info", "Starting scheduled RSS processing", "info"⟩
    let outcomeLogs : List LogEntry :=
      match sres, eres with
      | .ok _, .ok => [⟨"info", "Scheduled task completed successfully", "info"⟩]
      | .ok _, .fail e =>
          [⟨"error", "Scheduled task completed but email failed: " ++ e, "error"⟩]
      | .ok _, .thrown m => [⟨"error", "Scheduled task error: " ++ m, "error"⟩]
      | .fail e, _ => [⟨"error", "Scheduled task failed: " ++ e, "error"⟩]
      | .thrown m, _ => [⟨"error", "Scheduled task error: " ++ m, "error"⟩]
    { isRunning := false, settings := settings2, logs := startLog :: outcomeLogs }

/-- Result value of `SchedulerService.runNow` (the structured object
returned to the API layer). -/
structure RunNowValue where
  success : Bool
  summaryId : Option String
  error : Option String
  deriving Repr, DecidableEq

/-- Result of one `runNow` invocation: the returned value plus the
`isRunning` flag and stored settings after the call (which `runNow`
never writes). -/
structure RunNowResult where
  value : RunNowValue
  isRunning : Bool
  settings : Option ScheduleSettings
  deriving Repr, DecidableEq

/-- `SchedulerService.runNow`. When the lock is held it returns an
explicit already-running failure. Otherwise it runs the pipeline and
maps the outcomes to a structured result. It never writes `isRunning`,
`lastRun` or `nextRun`. -/
def runNow (running : Bool) (settings : Option ScheduleSettings)
    (sres : SummaryCallOutcome) (eres : EmailCallOutcome) : RunNowResult :=
  if running then
    { value := { success := false, summaryId := none
                 error := some "A scheduled task is already running" }
      isRunning := running, settings := settings }
  else
    let value : RunNowValue :=
      match sres, eres with
      | .thrown m, _ => { success := false, summaryId := none, error := some m }
      | .ok _, .thrown m =>
          { success := false, summaryId := none, error := some m }
      | .ok sid, _ => { success := true, summaryId := some sid, error := none }
      | .fail e, _ => { success := false, summaryId := none, error := some e }
    { value := value, isRunning := running, settings := settings }

/-! ### Interleaving machine for the run lock (claim C1)

One step of the machine is one synchronous segment of the event loop.
In `runScheduledTask` the check of `isRunning` and the assignment
`isRunning = true` happen with no `await` between them, so they form
one atomic step; the `finally` clearing of the flag is another step.
`runNow` checks the flag but never assigns it. -/

/-- Observable scheduler state for the concurrency analysis:
the lock flag, the number of currently executing cron-triggered runs,
the number of currently executing manual runs, and counters of skip
notices and already-running rejections. -/
structure LockState where
  isRunning : Bool
  schedActive : Nat
  manualActive : Nat
  skips : Nat
  rejected : Nat
  deriving Repr, DecidableEq

/-- Initial state: idle, nothing executing. -/
def lockInit : LockState :=
  { isRunning := false, schedActive := 0, manualActive := 0, skips := 0, rejected := 0 }

/-- Event-loop events relevant to the run lock. -/
inductive LockEvent where
  | trigStart
  | trigFinish
  | manualStart
  | manualFinish
  deriving Repr, DecidableEq

/-- One atomic event-loop step, as implemented by `runScheduledTask`
and `runNow`: a firing trigger checks then sets the lock (or logs a
skip); a finishing cron run clears the lock in `finally`; a manual
request checks the lock but, when free, starts executing without
setting it; a finishing manual run touches nothing. -/
def lockStep (σ : LockState) (e : LockEvent) : LockState :=
  match e with
  | .trigStart =>
      if σ.isRunning then { σ with skips := σ.skips + 1 }
      else { σ with isRunning := true, schedActive := σ.schedActive + 1 }
  | .trigFinish =>
      if σ.schedActive > 0 then
        { σ with schedActive := σ.schedActive - 1, isRunning := false }
      else σ
  | .manualStart =>
      if σ.isRunning then { σ with rejected := σ.rejected + 1 }
      else { σ with manualActive := σ.manualActive + 1 }
  | .manualFinish =>
      if σ.manualActive > 0 then { σ with manualActive := σ.manualActive - 1 }
      else σ

/-- Run the lock machine on a list of events from the initial state. -/
def lockRun (es : List LockEvent) : LockState :=
  es.foldl lockStep lockInit

/-- Number of pipeline runs executing at once. -/
def activeRuns (σ : LockState) : Nat := σ.schedActive + σ.manualActive

/-! ## Summary storage (MemStorage) and email delivery (emailService.ts) -/

/-- Digest record (shared/schema `summaries` row). -/
structure SummaryRec where
  id : String
  title : String
  content : String
  excerpt : String
  articleCount : Nat
  sourceCount : Nat
  emailSent : Bool
  emailError : Option String
  feedIds : List String
  generatedAt : Nat
  deriving Repr, DecidableEq, Inhabited

/-- The summary table of `MemStorage`, with ids assumed distinct. -/
abbrev SummaryStore := List SummaryRec

/-- Lookup of `MemStorage.getSummary`. -/
def findSummary (store : SummaryStore) (id : String) : Option SummaryRec :=
  store.find? (fun r => r.id == id)

/-- `MemStorage.updateSummary` restricted to the two delivery fields,
which is the only update the email service performs: on a missing id it
is a no-op returning `none` (undefined); otherwise it merges the fields
into the stored record and returns the updated record. -/
def updateSummaryEmail (store : SummaryStore) (id : String)
    (sent : Bool) (err : Option String) : SummaryStore × Option SummaryRec :=
  match findSummary store id with
  | none => (store, none)
  | some r =>
      let r2 := { r with emailSent := sent, emailError := err }
      (store.map (fun q => if q.id == id then r2 else q), some r2)

/-- Environment of one `sendSummaryEmail` call, covering the external
mail collaborators: the stored mail settings may be missing or
inactive, establishing the transport connection may fail its verify
handshake, and the dispatch itself may succeed or throw. -/
inductive DeliverEnv where
  | settingsMissing
  | transportFail
  | sendOk
  | sendFail (msg : String)
  deriving Repr, DecidableEq

/-- Structured result value of `sendSummaryEmail`. -/
structure DeliverValue where
  success : Bool
  error : Option String
  deriving Repr, DecidableEq

/-- Output of one `sendSummaryEmail` call: the store after the call,
the structured result, and the ids of digests actually dispatched on
the mail channel. -/
structure DeliverOutput where
  store : SummaryStore
  result : DeliverValue
  mails : List String
  deriving Repr, DecidableEq

/-- `EmailService.sendSummaryEmail`. Every throw inside the body is
caught: the catch block records the failure on the digest (a no-op when
the id does not exist) and returns a structured failure. A successful
dispatch marks the digest sent and clears the error field. -/
def sendSummaryEmail (store : SummaryStore) (id : String) (env : DeliverEnv) :
    DeliverOutput :=
  match findSummary store id with
  | none =>
      let upd := updateSummaryEmail store id false (some "Summary not found")
      { store := upd.1
        result := { success := false, error := some "Summary not found" }
        mails := [] }
  | some _ =>
      match env with
      | .settingsMissing =>
          let msg := "Email settings not configured"
          let upd := updateSummaryEmail store id false (some msg)
          { store := upd.1, result := { success := false, error := some msg }, mails := [] }
      | .transportFail =>
          let msg := "Failed to initialize email service"
          let upd := updateSummaryEmail store id false (some msg)
          { store := upd.1, result := { success := false, error := some msg }, mails := [] }
      | .sendOk =>
          let upd := updateSummaryEmail store id true none
          { store := upd.1, result := { success := true, error := none }, mails := [id] }
      | .sendFail m =>
          let upd := updateSummaryEmail store id false (some m)
          { store := upd.1, result := { success := false, error := some m }, mails := [] }

/-- Apply a sequence of delivery calls to the store. -/
def deliverSeq (store : SummaryStore) (events : List (String × DeliverEnv)) :
    SummaryStore :=
  events.foldl (fun st p => (sendSummaryEmail st p.1 p.2).store) store

/-- Claimed digest invariant: `emailSent` and `emailError` are never
both truthy on a record (JavaScript truthiness: a non-null non-empty
error string). -/
def emailStateOk (r : SummaryRec) : Bool :=
  !(r.emailSent && truthyOptStr r.emailError)

/-- The invariant holds of every record in the store. -/
def storeEmailOk (store : SummaryStore) : Prop :=
  ∀ r ∈ store, emailStateOk r = true

/-! ## Feed fetcher (rssService.ts) -/

/-- Normalized feed item as returned by the parser channel
(`pubDate` in epoch milliseconds, absent when the item carries no
publish timestamp). -/
structure RSSItem where
  title : Option String
  link : Option String
  pubDate : Option Int
  content : Option String
  contentSnippet : Option String
  deriving Repr, DecidableEq

/-- Parsed feed document. -/
structure ParsedFeedData where
  title : String
  items : List RSSItem
  deriving Repr, DecidableEq

/-- Environment of `parseFeed`: the outcome of fetching the primary URL
on each attempt index, and the outcome of fetching any given URL once
(used for the single alternate-URL attempt). -/
structure FetchEnv where
  primary : Nat → Option ParsedFeedData
  byUrl : String → Option ParsedFeedData

/-- Does the URL end with the literal `/feed`? -/
def endsWithFeed (url : String) : Bool :=
  "/feed".data.isSuffixOf url.data

/-- JavaScript `url.replace("/feed", "/rss")`: replaces the FIRST
occurrence of `/feed`, copying the rest of the string verbatim. -/
def replaceFeedOnceChars : List Char → List Char
  | '/' :: 'f' :: 'e' :: 'e' :: 'd' :: rest => '/' :: 'r' :: 's' :: 's' :: rest
  | c :: rest => c :: replaceFeedOnceChars rest
  | [] => []

/-- The alternate URL the code actually fetches. -/
def altUrlOfCode (url : String) : String :=
  ⟨replaceFeedOnceChars url.data⟩

/-- Modelled from the spec: the alternate URL described by the spec
sentence, namely the URL with `/rss` substituted for the trailing
`/feed` suffix. Stated only for comparison with `altUrlOfCode`. -/
def specAltUrlSuffix (url : String) : String :=
  if endsWithFeed url then ⟨url.data.take (url.data.length - 5) ++ "/rss".data⟩ else url

/-- Result of `parseFeed`: the parsed document (or `none` after all
attempts fail) and the backoff waits performed, in milliseconds, in
order. -/
structure ParseFeedResult where
  value : Option ParsedFeedData
  waitsMs : List Nat
  deriving Repr, DecidableEq

/-- Attempt loop of `RSSService.parseFeed`: `remaining` counts the
attempts still allowed after the current one; on the final failing
attempt the single alternate URL is tried when the URL ends in `/feed`;
between failing attempts the code waits `1000 * (attempt + 1)` ms. -/
def parseFeedGo (env : FetchEnv) (url : String) :
    Nat → Nat → ParseFeedResult
  | attempt, 0 =>
      match env.primary attempt with
      | some d => { value := some d, waitsMs := [] }
      | none =>
          if endsWithFeed url then
            { value := env.byUrl (altUrlOfCode url), waitsMs := [] }
          else
            { value := none, waitsMs := [] }
  | attempt, r + 1 =>
      match env.primary attempt with
      | some d => { value := some d, waitsMs := [] }
      | none =>
          let res := parseFeedGo env url (attempt + 1) r
          { value := res.value, waitsMs := 1000 * (attempt + 1) :: res.waitsMs }

/-- `RSSService.parseFeed` with `retries` extra attempts after the
first (the source default is `retries = 2`, three total attempts). -/
def parseFeed (env : FetchEnv) (url : String) (retries : Nat) : ParseFeedResult :=
  parseFeedGo env url 0 retries

/-- Default retry count of the source. -/
def defaultRetries : Nat := 2

/-- Feed record (shared/schema `feeds` row) with its health fields. -/
structure FeedRec where
  id : String
  name : String
  url : String
  isActive : Bool
  includeInSummary : Bool
  status : String
  lastError : Option String
  lastChecked : Option Nat
  deriving Repr, DecidableEq

/-- Output of `RSSService.checkFeed`: the structured result and the
feed record after the health update. -/
structure CheckFeedOutput where
  success : Bool
  items : List RSSItem
  error : Option String
  feed : FeedRec
  deriving Repr, DecidableEq

/-- `RSSService.checkFeed` on an existing feed, given the outcome of
`parseFeed` on its URL: on failure the feed is marked `error` with the
cause, on success it is restored to `active` with the error cleared;
`lastChecked` is stamped either way. -/
def checkFeed (feed : FeedRec) (parsed : Option ParsedFeedData) (now : Nat) :
    CheckFeedOutput :=
  match parsed with
  | none =>
      { success := false, items := [], error := some "Failed to parse RSS feed"
        feed := { feed with status := "error"
                            lastError := some "Failed to parse RSS feed"
                            lastChecked := some now } }
  | some d =>
      { success := true, items := d.items, error := none
        feed := { feed with status := "active", lastError := none
                            lastChecked := some now } }

/-! ## Article collector (summaryService.generateSummary, collection loop) -/

/-- Ephemeral article produced by the collector. -/
structure ArticleData where
  title : String
  content : String
  source : String
  link : Option String
  pubDate : Option Int
  deriving Repr, DecidableEq

/-- Milliseconds in 24 hours. -/
def msPerDay : Int := 24 * 60 * 60 * 1000

/-- Recency filter of the collector: items with no publish timestamp
are retained; otherwise the timestamp must be strictly newer than
`now - 24h`. -/
def itemRecent (now : Int) (it : RSSItem) : Bool :=
  match it.pubDate with
  | none => true
  | some d => d > now - msPerDay

/-- Usability filter of the collector: a truthy title and a truthy
content or snippet (JavaScript truthiness, so empty strings fail). -/
def itemUsable (it : RSSItem) : Bool :=
  truthyOptStr it.title && (truthyOptStr it.content || truthyOptStr it.contentSnippet)

/-- Per-feed item selection of the collector, in source order: filter
by recency, `slice(0, 10)`, then keep usable items. -/
def keptItems (now : Int) (items : List RSSItem) : List RSSItem :=
  ((items.filter (itemRecent now)).take 10).filter itemUsable

/-- Body text chosen for an article: `item.content || item.contentSnippet || ""`. -/
def itemContent (it : RSSItem) : String :=
  jsOrStr (it.content.getD "") (it.contentSnippet.getD "")

/-- Normalization of a kept item into an article. -/
def toArticle (feedName : String) (it : RSSItem) : ArticleData :=
  { title := it.title.getD "", content := itemContent it
    source := feedName, link := it.link, pubDate := it.pubDate }

/-- Collection loop of `generateSummary` over the eligible feeds. The
environment maps a feed id to the `checkFeed` outcome: `none` for a
failed check, `some items` for a successful one. A feed id is pushed to
`processedFeedIds` as soon as the check succeeded with at least one raw
item, before any filtering. -/
def collect (now : Int) (env : String → Option (List RSSItem)) :
    List FeedRec → List ArticleData × List String
  | [] => ([], [])
  | f :: fs =>
      let rest := collect now env fs
      match env f.id with
      | some items =>
          if items.isEmpty then rest
          else ((keptItems now items).map (toArticle f.name) ++ rest.1, f.id :: rest.2)
      | none => rest

/-- Modelled from the spec: the set of feed ids that yielded at least
one usable article after filtering, in feed order. Stated only for
comparison with the `processedFeedIds` the code actually produces. -/
def specContributingIds (now : Int) (env : String → Option (List RSSItem))
    (activeFeeds : List FeedRec) : List String :=
  (activeFeeds.filter (fun f =>
    match env f.id with
    | some items => !(keptItems now items).isEmpty
    | none => false)).map (·.id)

/-! ## Digest generator (summaryService.createAISummary and fallback) -/

/-- JSON values as produced by `JSON.parse` on the AI payload. -/
inductive Json where
  | null
  | bool (b : Bool)
  | num (n : Int)
  | str (s : String)
  | arr (xs : List Json)
  | obj (fields : List (String × Json))

/-- One element of an array-shaped message content: a plain string, an
object with a string `text` field, or anything else (contributing the
empty string). -/
inductive AIContentPart where
  | str (s : String)
  | textObj (text : String)
  | other
  deriving Repr, DecidableEq

/-- Outcome of the chat-completion call as observed by
`createAISummary`: the call threw or timed out, the response carried no
message, or the message content was a string, an array of parts, or
some other shape. -/
inductive AIResponse where
  | errored
  | noMessage
  | contentStr (s : String)
  | contentParts (parts : List AIContentPart)
  | contentOther
  deriving Repr, DecidableEq

/-- Text contributed by one content part. -/
def partText : AIContentPart → String
  | .str s => s
  | .textObj t => t
  | .other => ""

/-- The `rawContent` extraction of `createAISummary`: trim a string
content, concatenate and trim an array content, otherwise empty. -/
def rawContentOf : AIResponse → String
  | .errored => ""
  | .noMessage => ""
  | .contentStr s => jsTrim s
  | .contentParts ps => jsTrim (String.join (ps.map partText))
  | .contentOther => ""

/-- Field lookup on a parsed JSON object; on duplicate keys
`JSON.parse` keeps the last binding. -/
def jsonField (fields : List (String × Json)) (key : String) : Option Json :=
  match fields.reverse.find? (fun p => p.1 == key) with
  | some p => some p.2
  | none => none

/-- The `typeof x === "string" ? x.trim() : ""` probe on a field. -/
def strFieldOrEmpty (fields : List (String × Json)) (key : String) : String :=
  match jsonField fields key with
  | some (.str s) => jsTrim s
  | _ => ""

/-- Digest fields returned by the generator. -/
structure SummaryFields where
  title : String
  content : String
  excerpt : String
  deriving Repr, DecidableEq

/-- Deduplication by first occurrence, as `Array.from(new Set(...))`. -/
def dedupKeepFirst (l : List String) : List String :=
  l.foldl (fun acc s => if acc.contains s then acc else acc ++ [s]) []

/-- Pluralization suffix used by the fallback template literals. -/
def pluralS (n : Nat) : String := if n = 1 then "" else "s"

/-- `SummaryService.buildFallbackSummary`: deterministic fallback
digest. The body string below is the `join("\n")` of the fixed
eight-line array of the source, written as one concatenation. -/
def buildFallbackSummary (articles : List ArticleData) (dateStr : String) :
    SummaryFields :=
  let articleCount := articles.length
  let uniqueSources := dedupKeepFirst ((articles.map (·.source)).filter truthyStr)
  let sourceCount := uniqueSources.length
  let sourceList :=
    if sourceCount > 0 then String.intercalate ", " uniqueSources
    else "your configured RSS feeds"
  let topTitles :=
    jsOrStr (String.intercalate "\n" ((articles.take 5).map (fun a => "• " ++ a.title)))
      "No articles were available to summarize."
  let articlePart :=
    "Latest news from " ++ Nat.repr articleCount ++ " article" ++ pluralS articleCount
  let sourcePart :=
    if sourceCount > 0 then
      "across " ++ Nat.repr sourceCount ++ " source" ++ pluralS sourceCount ++ "."
    else "from your configured RSS feeds."
  { title := "News Summary - " ++ dateStr
    excerpt := jsTrim (articlePart ++ " " ++ sourcePart)
    content :=
      "# Latest News Summary\n\n**Sources:** " ++ sourceList ++
      "\n\n**Top Stories:**\n" ++ topTitles ++
      "\n\nThis summary was generated from " ++ Nat.repr articleCount ++
      " article" ++ pluralS articleCount ++ ". AI summarization was unavailable." }

/-- `SummaryService.createAISummary`: the validation chain applied to
the chat-completion outcome, falling back to the deterministic digest
when the call errors, the response has no message, the extracted text
is empty, the text does not parse as JSON (`parse` models
`JSON.parse`), the parsed value is not a plain object, or the `content`
field is missing, empty, or matches the placeholder pattern
(case-insensitive). Title and excerpt fall back individually. -/
def createAISummary (articles : List ArticleData) (resp : AIResponse)
    (parse : String → Option Json) (dateStr : String) : SummaryFields :=
  let fallback := buildFallbackSummary articles dateStr
  match resp with
  | .errored => fallback
  | .noMessage => fallback
  | _ =>
      let raw := rawContentOf resp
      if raw = "" then fallback
      else
        match parse raw with
        | none => fallback
        | some (.obj fields) =>
            let title := strFieldOrEmpty fields "title"
            let content := strFieldOrEmpty fields "content"
            let excerpt := strFieldOrEmpty fields "excerpt"
            if content = "" || containsSubstrCI content "could not be generated" then
              fallback
            else
              { title := jsOrStr title fallback.title
                content := content
                excerpt := jsOrStr excerpt fallback.excerpt }
        | some _ => fallback

/-- `SummaryService.generateSummary`: select eligible feeds, collect
articles, generate the digest fields, and create exactly one summary
record. The two structured failures are the empty eligible set and the
empty article list. -/
def generateSummary (feeds : List FeedRec) (env : String → Option (List RSSItem))
    (resp : AIResponse) (parse : String → Option Json)
    (now : Int) (dateStr : String) (newId : String) (genAt : Nat) :
    Except String SummaryRec :=
  let activeFeeds := feeds.filter (fun f => f.isActive && f.includeInSummary)
  if activeFeeds.isEmpty then
    .error "No active feeds available for summarization"
  else
    let collected := collect now env activeFeeds
    if collected.1.isEmpty then
      .error "No articles found in any feeds"
    else
      let sd := createAISummary collected.1 resp parse dateStr
      .ok { id := newId, title := sd.title, content := sd.content
            excerpt := sd.excerpt
            articleCount := collected.1.length
            sourceCount := collected.2.length
            emailSent := false, emailError := none
            feedIds := collected.2, generatedAt := genAt }

/-! ## Email rendering (emailService markdownToHTML and generateEmailText)

The conversion chains JavaScript `replace` calls with `gim` flags. The
multiline anchors make the anchored patterns line-based, and `.` never
matches a newline, so those passes are modelled per line. The `i` flag
only matters for patterns containing letters (the `<p></p>` removal and
the heading unwrap); the pipeline itself only ever produces lowercase
tags, where the case-sensitive model coincides. -/

/-- JavaScript `split("\n")` on a character list. -/
def splitLinesChars : List Char → List (List Char)
  | [] => [[]]
  | '\n' :: rest => [] :: splitLinesChars rest
  | c :: rest =>
      match splitLinesChars rest with
      | [] => [[c]]
      | l :: ls => (c :: l) :: ls

/-- Join lines back with newlines. -/
def joinLinesChars (ls : List (List Char)) : List Char :=
  List.intercalate ['\n'] ls

/-- Apply a line transformation to every line, as an anchored
multiline-flag replace does. -/
def mapLines (f : List Char → List Char) (l : List Char) : List Char :=
  joinLinesChars ((splitLinesChars l).map f)

/-- The `^# (.*)$` to `<h1>$1</h1>` pass on one line. -/
def h1Line (line : List Char) : List Char :=
  if "# ".data.isPrefixOf line then "<h1>".data ++ line.drop 2 ++ "</h1>".data
  else line

/-- The `^## (.*)$` to `<h2>$1</h2>` pass on one line. -/
def h2Line (line : List Char) : List Char :=
  if "## ".data.isPrefixOf line then "<h2>".data ++ line.drop 3 ++ "</h2>".data
  else line

/-- The `^### (.*)$` to `<h3>$1</h3>` pass on one line. -/
def h3Line (line : List Char) : List Char :=
  if "### ".data.isPrefixOf line then "<h3>".data ++ line.drop 4 ++ "</h3>".data
  else line

/-- All indices at which `pat` occurs in the list (overlaps included),
offset by `i`. -/
def occIdxGo (pat : List Char) : List Char → Nat → List Nat
  | [], i => if pat.isEmpty then [i] else []
  | c :: rest, i =>
      (if pat.isPrefixOf (c :: rest) then [i] else []) ++ occIdxGo pat rest (i + 1)

/-- All occurrence indices of `pat` in `l`. -/
def occIdx (pat l : List Char) : List Nat := occIdxGo pat l 0

/-- One-line greedy replace of `pat (.*) pat` by tags, as a greedy
global regex with identical opener and closer performs it: the match
starts at the first occurrence and closes at the last occurrence (when
that leaves room for the opener), and since the closer is the last
occurrence the remainder holds no further match. -/
def delimReplace (pat openT closeT : List Char) (line : List Char) : List Char :=
  let occs := occIdx pat line
  match occs.head?, occs.getLast? with
  | some i, some j =>
      if i + pat.length ≤ j then
        line.take i ++ openT ++ ((line.drop (i + pat.length)).take (j - (i + pat.length)))
          ++ closeT ++ line.drop (j + pat.length)
      else line
  | _, _ => line

/-- The `\*\*(.*)\*\*` to `<strong>$1</strong>` pass on one line. -/
def strongLine (line : List Char) : List Char :=
  delimReplace "**".data "<strong>".data "</strong>".data line

/-- The `\*(.*)\*` to `<em>$1</em>` pass on one line. -/
def emLine (line : List Char) : List Char :=
  delimReplace "*".data "<em>".data "</em>".data line

/-- The `\n\n` to `</p><p>` pass on the whole string. -/
def paraChars : List Char → List Char
  | '\n' :: '\n' :: rest => "</p><p>".data ++ paraChars rest
  | c :: rest => c :: paraChars rest
  | [] => []

/-- The `^(.*)$` to `<p>$1</p>` pass on one line. -/
def wrapPLine (line : List Char) : List Char :=
  "<p>".data ++ line ++ "</p>".data

/-- The `<p><\/p>` to empty pass on the whole string. -/
def removeEmptyP : List Char → List Char
  | '<' :: 'p' :: '>' :: '<' :: '/' :: 'p' :: '>' :: rest => removeEmptyP rest
  | c :: rest => c :: removeEmptyP rest
  | [] => []

/-- Is the character one of `1`, `2`, `3`? -/
def isDigit13 (c : Char) : Bool := c = '1' || c = '2' || c = '3'

/-- The `^<p>(<h[1-3]>.*<\/h[1-3]>)<\/p>$` unwrap pass on one line:
the line must open with `<p><h?>` and close with `</h?></p>` (with room
for both), in which case the outer paragraph tags are stripped. -/
def unwrapHeadingLine (line : List Char) : List Char :=
  if 16 ≤ line.length
      && "<p><h".data.isPrefixOf line
      && isDigit13 (line.getD 5 ' ')
      && (line.getD 6 ' ' == '>')
      && ("</h1></p>".data.isSuffixOf line || "</h2></p>".data.isSuffixOf line
          || "</h3></p>".data.isSuffixOf line)
  then (line.drop 3).take (line.length - 7)
  else line

/-- The nine replace passes of `EmailService.markdownToHTML`, in
source order. -/
def mdPipeline (l : List Char) : List Char :=
  let s1 := mapLines h1Line l
  let s2 := mapLines h2Line s1
  let s3 := mapLines h3Line s2
  let s4 := mapLines strongLine s3
  let s5 := mapLines emLine s4
  let s6 := paraChars s5
  let s7 := mapLines wrapPLine s6
  let s8 := removeEmptyP s7
  mapLines unwrapHeadingLine s8

/-- `EmailService.markdownToHTML`. -/
def markdownToHTML (s : String) : String := ⟨mdPipeline s.data⟩

/-- `EmailService.generateEmailText`: the plain-text body, one template
literal with the digest content embedded verbatim (`dateStr`,
`timeStr`, `year` stand for the locale renderings of the clock). -/
def generateEmailText (s : SummaryRec) (dateStr timeStr : String) (year : Nat) :
    String :=
  s.title ++ "\n\nGenerated on " ++ dateStr ++ " at " ++ timeStr ++
  "\nArticles: " ++ Nat.repr s.articleCount ++ " | Sources: " ++
  Nat.repr s.sourceCount ++ "\n\n" ++ s.content ++
  "\n\n---\nThis summary was automatically generated by your RSS Automation System\nPowered by AI • " ++
  Nat.repr year

/-- The wrapper text preceding the digest body in the plain-text
rendering. -/
def emailTextHeader (s : SummaryRec) (dateStr timeStr : String) : String :=
  s.title ++ "\n\nGenerated on " ++ dateStr ++ " at " ++ timeStr ++
  "\nArticles: " ++ Nat.repr s.articleCount ++ " | Sources: " ++
  Nat.repr s.sourceCount ++ "\n\n"

/-- The wrapper text following the digest body in the plain-text
rendering. -/
def emailTextFooter (year : Nat) : String :=
  "\n\n---\nThis summary was automatically generated by your RSS Automation System\nPowered by AI • " ++
  Nat.repr year

/-- The first five passes of the conversion (the per-line heading,
strong and em replaces), split out of `mdPipeline` for analysis. -/
def mdFront (l : List Char) : List Char :=
  mapLines emLine (mapLines strongLine (mapLines h3Line (mapLines h2Line (mapLines h1Line l))))

/-- The last four passes of the conversion (the paragraph split, the
line wrap, the empty-paragraph removal and the heading unwrap), split
out of `mdPipeline` for analysis. -/
def mdTailFn (l : List Char) : List Char :=
  mapLines unwrapHeadingLine (removeEmptyP (mapLines wrapPLine (paraChars l)))

/-- No two adjacent characters of the list read `<p` — the shape that
the empty-paragraph removal pass scans for. -/
def noSeqLP : List Char → Bool
  | a :: b :: rest => !(a == '<' && b == 'p') && noSeqLP (b :: rest)
  | _ => true

/-- Does the AI call outcome trip the validation chain of
`createAISummary`? Mirrors the chain branch by branch: the call
errored, the response had no message, the extracted text is empty, the
text does not parse, the parsed value is not a plain object, or the
`content` field is missing, empty, or matches the placeholder. -/
def aiPayloadRejected (resp : AIResponse) (parse : String → Option Json) : Bool :=
  match resp with
  | .errored => true
  | .noMessage => true
  | _ =>
      let raw := rawContentOf resp
      if raw = "" then true
      else
        match parse raw with
        | some (.obj fields) =>
            let content := strFieldOrEmpty fields "content"
            (content = "") || containsSubstrCI content "could not be generated"
        | some _ => true
        | none => true

/-! ## General helper lemmas -/

/-- String concatenation is associative. -/
theorem strAppend_assoc (a b c : String) : a ++ b ++ c = a ++ (b ++ c) := by
  cases a with
  | mk la =>
    cases b with
    | mk lb =>
      cases c with
      | mk lc => exact congrArg String.mk (List.append_assoc la lb lc)

/-- Dropping leading whitespace is the identity when the first
character is not whitespace. -/
theorem trimLeftChars_eq_self (l : List Char) (c : Char)
    (h : l.head? = some c) (hc : c.isWhitespace = false) :
    trimLeftChars l = l := by
  cases l with
  | nil => rfl
  | cons a as =>
      have : a = c := by simpa using h
      subst this
      simp [trimLeftChars, List.dropWhile_cons, hc]

/-- JavaScript trim is the identity on a string whose first and last
characters are not whitespace. -/
theorem jsTrim_eq_self (s : String) (c c2 : Char)
    (h1 : s.data.head? = some c) (h2 : s.data.getLast? = some c2)
    (hc : c.isWhitespace = false) (hc2 : c2.isWhitespace = false) :
    jsTrim s = s := by
  have hrev : s.data.reverse.head? = some c2 := by
    rw [List.head?_reverse]; exact h2
  have e1 : trimLeftChars s.data.reverse = s.data.reverse :=
    trimLeftChars_eq_self _ _ hrev hc2
  have e2 : trimLeftChars ((trimLeftChars s.data.reverse).reverse) = s.data := by
    rw [e1, List.reverse_reverse]
    exact trimLeftChars_eq_self _ _ h1 hc
  show String.mk (trimLeftChars ((trimLeftChars s.data.reverse).reverse)) = s
  rw [e2]

/-- Head character of a string concatenation, from the left part. -/
theorem head_str_append (a b : String) (c : Char) (h : a.data.head? = some c) :
    (a ++ b).data.head? = some c := by
  rw [String.data_append]
  cases ha : a.data with
  | nil => rw [ha] at h; simp at h
  | cons x xs => rw [ha] at h; simpa using h

/-- Last character of a string concatenation, from the right part. -/
theorem getLast_str_append (a b : String) (c : Char)
    (h : b.data.getLast? = some c) : (a ++ b).data.getLast? = some c := by
  rw [String.data_append]
  have hb : b.data ≠ [] := by
    intro hnil; rw [hnil] at h; simp at h
  rw [List.getLast?_append_of_ne_nil _ hb]
  exact h

/-! ## Claim C1 -/

/-- Claim C1 is violated by the code: from the idle initial state a
manual run-now request starts executing without taking the lock
(`runNow` checks `isRunning` but never sets it), so a trigger firing
while the manual run executes starts a second concurrent run. The
rejection behaviours the claim describes do hold while a
cron-triggered run holds the lock: a trigger firing logs a skip and
starts nothing, and a manual request is rejected with the
already-running outcome. -/
theorem C1_lock_violation :
    activeRuns (lockRun [.manualStart, .trigStart]) = 2
    ∧ (lockStep { lockInit with isRunning := true, schedActive := 1 } .manualStart).rejected = 1
    ∧ activeRuns (lockStep { lockInit with isRunning := true, schedActive := 1 } .manualStart) = 1
    ∧ (lockStep { lockInit with isRunning := true, schedActive := 1 } .trigStart).skips = 1
    ∧ activeRuns (lockStep { lockInit with isRunning := true, schedActive := 1 } .trigStart) = 1 := by
  decide

/-! ## Claim C8 -/

/-- Claim C8: each supported frequency in 1, 2, 4, 6, 8, 12, 24 hours
maps to its exact cron cadence, every unsupported frequency maps to the
4-hour cadence, and arming an enabled schedule stores
`nextRun = now + frequency` hours (in milliseconds) while arming the
cron expression for the frequency. -/
theorem C8_cron_mapping_and_next_run :
    getCronExpression 1 = "0 * * * *"
    ∧ getCronExpression 2 = "0 */2 * * *"
    ∧ getCronExpression 4 = "0 */4 * * *"
    ∧ getCronExpression 6 = "0 */6 * * *"
    ∧ getCronExpression 8 = "0 */8 * * *"
    ∧ getCronExpression 12 = "0 */12 * * *"
    ∧ getCronExpression 24 = "0 0 * * *"
    ∧ (∀ h : Nat, h ∉ ([1, 2, 4, 6, 8, 12, 24] : List Nat) →
        getCronExpression h = "0 */4 * * *")
    ∧ (∀ (s : ScheduleSettings) (now : Nat), s.isEnabled = true →
        (updateSchedule (some s) now).settings
            = some { s with nextRun := some (now + s.frequencyHours * 60 * 60 * 1000) }
        ∧ (updateSchedule (some s) now).armedCron
            = some (getCronExpression s.frequencyHours)) := by
  refine ⟨rfl, rfl, rfl, rfl, rfl, rfl, rfl, ?_, ?_⟩
  · intro h hmem
    simp only [List.mem_cons, List.mem_singleton, not_or] at hmem
    obtain ⟨n1, n2, n4, n6, n8, n12, n24, -⟩ := hmem
    simp [getCronExpression, n1, n2, n4, n6, n8, n12, n24]
  · intro s now hs
    constructor
    · simp [updateSchedule, hs, getNextRunTime]
    · simp [updateSchedule, hs]

/-- Witness for C8: frequency 5 is unsupported and maps to the 4-hour
cadence, and arming an enabled 4-hour schedule at time 1000 stores
`nextRun = 1000 + 4 hours`. -/
theorem C8_cron_mapping_witness :
    getCronExpression 5 = "0 */4 * * *"
    ∧ (updateSchedule (some ⟨true, 4, none, none⟩) 1000).settings
        = some ⟨true, 4, some (1000 + 4 * 60 * 60 * 1000), none⟩ := by
  have h := C8_cron_mapping_and_next_run
  exact ⟨h.2.2.2.2.2.2.2.1 5 (by decide),
    (h.2.2.2.2.2.2.2.2 ⟨true, 4, none, none⟩ 1000 rfl).1⟩

/-! ## Claim C7 -/

/-- Claim C7 (amended): for every cron-triggered run started with the
lock free and settings present, the lock is clear after the run settles
no matter how the pipeline ended (success, reported failure, or thrown
exception), and the stored settings carry `lastRun = now` (the time the
run started) and `nextRun = now + frequency`; a manual run-now request,
by contrast, never writes the lock, `lastRun` or `nextRun`. -/
theorem C7_amended_lock_release_and_timestamps :
    (∀ (s : ScheduleSettings) (now : Nat) (sres : SummaryCallOutcome)
        (eres : EmailCallOutcome),
      (runScheduledTask false (some s) now sres eres).isRunning = false
      ∧ (runScheduledTask false (some s) now sres eres).settings
          = some { s with lastRun := some now
                          nextRun := some (now + s.frequencyHours * 60 * 60 * 1000) })
    ∧ (∀ (running : Bool) (settings : Option ScheduleSettings)
        (sres : SummaryCallOutcome) (eres : EmailCallOutcome),
      (runNow running settings sres eres).settings = settings
      ∧ (runNow running settings sres eres).isRunning = running) := by
  constructor
  · intro s now sres eres
    exact ⟨rfl, by simp [runScheduledTask, getNextRunTime]⟩
  · intro running settings sres eres
    cases running <;> simp [runNow]

/-- Claim C7 counterexample: a manual run completes successfully, yet
neither `lastRun` nor `nextRun` is updated — the stored settings are
untouched, so `lastRun` is still `none` after the run. -/
theorem C7_counterexample :
    (runNow false (some ⟨true, 4, none, none⟩) (.ok "s1") .ok).value.success = true
    ∧ ((runNow false (some ⟨true, 4, none, none⟩) (.ok "s1") .ok).settings.bind
        (fun s => s.lastRun)) = none
    ∧ ((runNow false (some ⟨true, 4, none, none⟩) (.ok "s1") .ok).settings.bind
        (fun s => s.nextRun)) = none := by
  decide

/-! ## Claim C5 -/

/-- Attempt loop of the fetcher: when the first `k` attempts (counted
from attempt index `a`) fail and attempt `a + k` succeeds within the
budget, the loop returns that result after the linearly increasing
waits `1000 * (attempt + 1)` between the failing attempts. -/
theorem parseFeedGo_success (env : FetchEnv) (url : String) (d : ParsedFeedData) :
    ∀ (k a r : Nat), k ≤ r → (∀ i, i < k → env.primary (a + i) = none) →
    env.primary (a + k) = some d →
    parseFeedGo env url a r
      = { value := some d
          waitsMs := (List.range k).map (fun i => 1000 * (a + i + 1)) } := by
  intro k
  induction k with
  | zero =>
      intro a r _ _ hsucc
      have hs : env.primary a = some d := by simpa using hsucc
      cases r with
      | zero => simp [parseFeedGo, hs]
      | succ r2 => simp [parseFeedGo, hs]
  | succ k ih =>
      intro a r hk hfail hsucc
      cases r with
      | zero => omega
      | succ r2 =>
          have h0 : env.primary a = none := by
            simpa using hfail 0 (Nat.succ_pos k)
          have hfail2 : ∀ i, i < k → env.primary (a + 1 + i) = none := by
            intro i hi
            have := hfail (i + 1) (by omega)
            have he : a + (i + 1) = a + 1 + i := by omega
            rw [he] at this
            exact this
          have hsucc2 : env.primary (a + 1 + k) = some d := by
            have he : a + (k + 1) = a + 1 + k := by omega
            rw [he] at hsucc
            exact hsucc
          have ih2 := ih (a + 1) r2 (by omega) hfail2 hsucc2
          have hmap : (List.range (k + 1)).map (fun i => 1000 * (a + i + 1))
              = 1000 * (a + 1) :: (List.range k).map (fun i => 1000 * (a + 1 + i + 1)) := by
            rw [List.range_succ_eq_map, List.map_cons, List.map_map]
            refine congrArg₂ List.cons (by omega) ?_
            apply List.map_congr_left
            intro i _
            simp only [Function.comp]
            omega
          simp [parseFeedGo, h0, ih2, hmap]

/-- Attempt loop of the fetcher: when all attempts within the budget
fail, the result is the single alternate-URL fetch when the URL ends
with `/feed`, and failure otherwise. -/
theorem parseFeedGo_allFail (env : FetchEnv) (url : String) :
    ∀ (r a : Nat), (∀ i, i ≤ r → env.primary (a + i) = none) →
    (parseFeedGo env url a r).value
      = (if endsWithFeed url then env.byUrl (altUrlOfCode url) else none) := by
  intro r
  induction r with
  | zero =>
      intro a h
      have h0 : env.primary a = none := by simpa using h 0 (Nat.le_refl 0)
      by_cases hf : endsWithFeed url <;> simp [parseFeedGo, h0, hf]
  | succ r2 ih =>
      intro a h
      have h0 : env.primary a = none := by simpa using h 0 (Nat.zero_le _)
      have h2 : ∀ i, i ≤ r2 → env.primary (a + 1 + i) = none := by
        intro i hi
        have := h (i + 1) (by omega)
        have he : a + (i + 1) = a + 1 + i := by omega
        rw [he] at this
        exact this
      have := ih (a + 1) h2
      simp [parseFeedGo, h0, this]

/-- Claim C5 (amended): `parseFeed` tries the primary URL up to
`retries + 1` times (the source default is `retries = 2`, three total
attempts); a success on attempt `k` returns the result after waiting
`1000 * attemptNumber` milliseconds between the earlier failing
attempts; only after all primary attempts fail, and only when the URL
ends with `/feed`, is the single alternate URL tried — the alternate
being the URL with its FIRST occurrence of `/feed` replaced by `/rss`
— before failure is returned; and a successful check restores the feed
health to `active` with the error cleared. -/
theorem C5_amended_retry_policy :
    (∀ (env : FetchEnv) (url : String) (retries k : Nat) (d : ParsedFeedData),
      k ≤ retries → (∀ i, i < k → env.primary i = none) →
      env.primary k = some d →
      parseFeed env url retries
        = { value := some d
            waitsMs := (List.range k).map (fun i => 1000 * (i + 1)) })
    ∧ (∀ (env : FetchEnv) (url : String) (retries : Nat),
      (∀ i, i ≤ retries → env.primary i = none) →
      (parseFeed env url retries).value
        = (if endsWithFeed url then env.byUrl (altUrlOfCode url) else none))
    ∧ (∀ (f : FeedRec) (d : ParsedFeedData) (now : Nat),
      (checkFeed f (some d) now).feed.status = "active"
      ∧ (checkFeed f (some d) now).feed.lastError = none
      ∧ (checkFeed f (some d) now).success = true) := by
  refine ⟨?_, ?_, ?_⟩
  · intro env url retries k d hk hfail hsucc
    have := parseFeedGo_success env url d k 0 retries hk
      (by intro i hi; simpa using hfail i hi) (by simpa using hsucc)
    simpa [parseFeed] using this
  · intro env url retries h
    have := parseFeedGo_allFail env url retries 0 (by intro i hi; simpa using h i hi)
    simpa [parseFeed] using this
  · intro f d now
    exact ⟨rfl, rfl, rfl⟩

/-- Fetch environment for the C5 witness: the primary URL fails twice,
then succeeds on the third attempt. -/
def c5okEnv : FetchEnv :=
  { primary := fun i => if i = 2 then some { title := "ok", items := [] } else none
    byUrl := fun _ => none }

/-- Witness for C5: with the default two retries, a URL failing twice
and succeeding on the third attempt yields the parsed result, after
backoff waits of one and two seconds. -/
theorem C5_amended_witness :
    parseFeed c5okEnv "http://x/feed" defaultRetries
      = { value := some { title := "ok", items := [] }, waitsMs := [1000, 2000] } := by
  have h := C5_amended_retry_policy.1 c5okEnv "http://x/feed" defaultRetries 2
    { title := "ok", items := [] } (by decide)
    (by intro i hi; interval_cases i <;> rfl) rfl
  rw [h]
  decide

/-- Fetch environment for the C5 counterexample: every primary attempt
fails, and the only URL that would succeed is the one obtained by
substituting `/rss` for the trailing `/feed` suffix. -/
def c5altEnv : FetchEnv :=
  { primary := fun _ => none
    byUrl := fun u =>
      if u = "http://x/feed/rss" then some { title := "alt", items := [] } else none }

/-- Claim C5 counterexample: for the URL `http://x/feed/feed` (which
ends with `/feed`), the code replaces the FIRST occurrence of `/feed`,
fetching `http://x/rss/feed` rather than the suffix-substituted
`http://x/feed/rss`; against an environment where only the
suffix-substituted URL exists, `parseFeed` fails although the claim
implies the alternate attempt would succeed. -/
theorem C5_counterexample :
    endsWithFeed "http://x/feed/feed" = true
    ∧ altUrlOfCode "http://x/feed/feed" = "http://x/rss/feed"
    ∧ specAltUrlSuffix "http://x/feed/feed" = "http://x/feed/rss"
    ∧ (parseFeed c5altEnv "http://x/feed/feed" defaultRetries).value = none
    ∧ c5altEnv.byUrl (specAltUrlSuffix "http://x/feed/feed")
        = some { title := "alt", items := [] } := by
  decide

/-! ## Claim C6 -/

/-- After the mapped update of `updateSummaryEmail`, looking the id up
yields the merged record. -/
theorem find_after_update_map (id : String) (r2 : SummaryRec) :
    ∀ (store : SummaryStore) (r : SummaryRec),
    store.find? (fun q => q.id == id) = some r → r2.id = r.id →
    (store.map (fun q => if q.id == id then r2 else q)).find? (fun q => q.id == id)
      = some r2 := by
  intro store
  induction store with
  | nil => intro r h _; simp [List.find?] at h
  | cons q rest ih =>
      intro r h hid
      cases hq : (q.id == id) with
      | true =>
          have hqr : q = r := by
            rw [List.find?_cons_of_pos _ (by exact hq)] at h
            exact Option.some.inj h
          have hr2 : (r2.id == id) = true := by
            rw [hid, ← hqr]
            exact hq
          rw [List.map_cons]
          have hhead : (if (q.id == id) = true then r2 else q) = r2 := by simp [hq]
          rw [hhead]
          exact List.find?_cons_of_pos _ (by exact hr2)
      | false =>
          have h2 : rest.find? (fun q2 => q2.id == id) = some r := by
            rw [List.find?_cons_of_neg _ (by simp [hq])] at h
            exact h
          rw [List.map_cons]
          have hhead : (if (q.id == id) = true then r2 else q) = q := by simp [hq]
          rw [hhead]
          rw [List.find?_cons_of_neg _ (by simp [hq])]
          exact ih r h2 hid

/-- The delivery update preserves the email-flags invariant whenever
the written pair is itself compatible with it. -/
theorem storeEmailOk_update (store : SummaryStore) (id : String) (sent : Bool)
    (err : Option String) (hse : (sent && truthyOptStr err) = false)
    (h : storeEmailOk store) : storeEmailOk (updateSummaryEmail store id sent err).1 := by
  unfold updateSummaryEmail
  cases hf : findSummary store id with
  | none => exact h
  | some r =>
      show storeEmailOk (store.map
        (fun q => if (q.id == id) = true then
          { r with emailSent := sent, emailError := err } else q))
      intro x hx
      rw [List.mem_map] at hx
      obtain ⟨q, hq, hxe⟩ := hx
      cases hqi : (q.id == id) with
      | true =>
          rw [hqi, if_pos rfl] at hxe
          subst hxe
          simp [emailStateOk, hse]
      | false =>
          rw [hqi] at hxe
          simp only [Bool.false_eq_true, if_false] at hxe
          subst hxe
          exact h q hq

/-- One delivery call preserves the email-flags invariant. -/
theorem sendSummaryEmail_preserves (store : SummaryStore) (id : String)
    (env : DeliverEnv) (h : storeEmailOk store) :
    storeEmailOk (sendSummaryEmail store id env).store := by
  unfold sendSummaryEmail
  cases hf : findSummary store id with
  | none =>
      exact storeEmailOk_update store id false _ (by simp) h
  | some r =>
      cases env with
      | settingsMissing =>
          exact storeEmailOk_update store id false _ (by simp) h
      | transportFail =>
          exact storeEmailOk_update store id false _ (by simp) h
      | sendOk =>
          exact storeEmailOk_update store id true none (by simp [truthyOptStr]) h
      | sendFail m =>
          exact storeEmailOk_update store id false _ (by simp) h

/-- Claim C6: a digest created by a successful `generateSummary` run
starts with `emailSent = false` and an empty `emailError`; every
delivery call writes either `(true, none)` on success or
`(false, cause)` on failure; and the invariant that `emailSent` and
`emailError` are never both truthy is preserved by every sequence of
delivery calls. -/
theorem C6_email_flags_invariant :
    (∀ (feeds : List FeedRec) (env : String → Option (List RSSItem))
        (resp : AIResponse) (parse : String → Option Json) (now : Int)
        (dateStr newId : String) (genAt : Nat) (rec : SummaryRec),
      generateSummary feeds env resp parse now dateStr newId genAt = .ok rec →
      rec.emailSent = false ∧ rec.emailError = none)
    ∧ (∀ (store : SummaryStore) (id : String) (r : SummaryRec),
      findSummary store id = some r →
      findSummary (sendSummaryEmail store id .sendOk).store id
          = some { r with emailSent := true, emailError := none }
      ∧ ∀ m, findSummary (sendSummaryEmail store id (.sendFail m)).store id
          = some { r with emailSent := false, emailError := some m })
    ∧ (∀ (events : List (String × DeliverEnv)) (store : SummaryStore),
      storeEmailOk store → storeEmailOk (deliverSeq store events)) := by
  refine ⟨?_, ?_, ?_⟩
  · intro feeds env resp parse now dateStr newId genAt rec h
    unfold generateSummary at h
    by_cases h1 : (feeds.filter (fun f => f.isActive && f.includeInSummary)).isEmpty
    · rw [if_pos h1] at h; exact absurd h (by simp)
    · rw [if_neg h1] at h
      by_cases h2 : (collect now env
          (feeds.filter (fun f => f.isActive && f.includeInSummary))).1.isEmpty
      · rw [if_pos h2] at h; exact absurd h (by simp)
      · rw [if_neg h2] at h
        cases h
        exact ⟨rfl, rfl⟩
  · intro store id r hf
    have hsend : ∀ (sent : Bool) (err : Option String),
        findSummary (updateSummaryEmail store id sent err).1 id
          = some { r with emailSent := sent, emailError := err } := by
      intro sent err
      unfold updateSummaryEmail
      rw [hf]
      exact find_after_update_map id _ store r hf rfl
    constructor
    · simp only [sendSummaryEmail, hf]
      exact hsend true none
    · intro m
      simp only [sendSummaryEmail, hf]
      exact hsend false (some m)
  · intro events
    induction events with
    | nil => intro store h; exact h
    | cons e rest ih =>
        intro store h
        exact ih _ (sendSummaryEmail_preserves store e.1 e.2 h)

/-- Store for the C6 witness: one pending digest record. -/
def c6store : SummaryStore :=
  [{ id := "a", title := "t", content := "c", excerpt := "e", articleCount := 1
     sourceCount := 1, emailSent := false, emailError := none, feedIds := ["f"]
     generatedAt := 0 }]

/-- Witness for C6: after a failed delivery, a successful delivery and
a delivery with missing settings, the invariant still holds of the
store. -/
theorem C6_email_flags_invariant_witness :
    storeEmailOk (deliverSeq c6store
      [("a", .sendFail "boom"), ("a", .sendOk), ("a", .settingsMissing)]) := by
  exact C6_email_flags_invariant.2.2
    [("a", .sendFail "boom"), ("a", .sendOk), ("a", .settingsMissing)]
    c6store (by intro x hx; simp only [c6store, List.mem_singleton] at hx; subst hx; rfl)

/-! ## Claim C10 -/

/-- Claim C10: a delivery request for an id with no stored digest
returns the structured failure `Summary not found` without dispatching
anything on the mail channel; the error-path update against the
nonexistent id is a no-op returning `none` (undefined), so every
stored digest record is left unchanged. -/
theorem C10_missing_summary_noop (store : SummaryStore) (id : String)
    (env : DeliverEnv) (h : findSummary store id = none) :
    (sendSummaryEmail store id env).store = store
    ∧ (sendSummaryEmail store id env).result
        = { success := false, error := some "Summary not found" }
    ∧ (sendSummaryEmail store id env).mails = []
    ∧ updateSummaryEmail store id false (some "Summary not found") = (store, none) := by
  have hupd : updateSummaryEmail store id false (some "Summary not found")
      = (store, none) := by
    simp only [updateSummaryEmail, h]
  refine ⟨?_, ?_, ?_, hupd⟩ <;> simp only [sendSummaryEmail, h, hupd]

/-- Witness for C10: delivering to the unknown id `zzz` against a
store holding one other record leaves the store unchanged and sends
nothing. -/
theorem C10_missing_summary_noop_witness :
    (sendSummaryEmail [⟨"b", "t", "c", "e", 1, 1, false, none, [], 0⟩] "zzz" .sendOk).store
        = [⟨"b", "t", "c", "e", 1, 1, false, none, [], 0⟩]
    ∧ (sendSummaryEmail [⟨"b", "t", "c", "e", 1, 1, false, none, [], 0⟩] "zzz" .sendOk).mails
        = [] := by
  have h := C10_missing_summary_noop
    [⟨"b", "t", "c", "e", 1, 1, false, none, [], 0⟩] "zzz" .sendOk (by decide)
  exact ⟨h.1, h.2.2.1⟩

/-! ## Claim C2 -/

/-- The `processedFeedIds` list built by the collection loop holds
exactly the ids of the feeds whose check succeeded with at least one
raw item, in feed order, before any filtering. -/
theorem collect_processedIds (now : Int) (env : String → Option (List RSSItem)) :
    ∀ feeds : List FeedRec,
    (collect now env feeds).2
      = (feeds.filter (fun f =>
          match env f.id with
          | some items => !items.isEmpty
          | none => false)).map (·.id) := by
  intro feeds
  induction feeds with
  | nil => rfl
  | cons f fs ih =>
      cases he : env f.id with
      | none => simp [collect, he, ih]
      | some items =>
          by_cases hi : items.isEmpty <;> simp [collect, he, hi, ih]

/-- Claim C2 (amended): a successful `generateSummary` run creates
exactly one summary record whose `articleCount` is the number of
collected articles, whose `emailSent` is false and `emailError` empty,
and whose `feedIds` / `sourceCount` record exactly the eligible feeds
whose fetch succeeded with at least one raw item BEFORE filtering — a
feed all of whose items are filtered out is still counted. -/
theorem C2_amended (feeds : List FeedRec) (env : String → Option (List RSSItem))
    (resp : AIResponse) (parse : String → Option Json) (now : Int)
    (dateStr newId : String) (genAt : Nat) (rec : SummaryRec)
    (h : generateSummary feeds env resp parse now dateStr newId genAt = .ok rec) :
    rec.articleCount
        = (collect now env (feeds.filter (fun f => f.isActive && f.includeInSummary))).1.length
    ∧ rec.emailSent = false
    ∧ rec.emailError = none
    ∧ rec.feedIds
        = (collect now env (feeds.filter (fun f => f.isActive && f.includeInSummary))).2
    ∧ rec.sourceCount = rec.feedIds.length
    ∧ rec.feedIds
        = ((feeds.filter (fun f => f.isActive && f.includeInSummary)).filter (fun f =>
            match env f.id with
            | some items => !items.isEmpty
            | none => false)).map (·.id) := by
  unfold generateSummary at h
  by_cases h1 : (feeds.filter (fun f => f.isActive && f.includeInSummary)).isEmpty
  · rw [if_pos h1] at h; exact absurd h (by simp)
  · rw [if_neg h1] at h
    by_cases h2 : (collect now env
        (feeds.filter (fun f => f.isActive && f.includeInSummary))).1.isEmpty
    · rw [if_pos h2] at h; exact absurd h (by simp)
    · rw [if_neg h2] at h
      cases h
      exact ⟨rfl, rfl, rfl, rfl, rfl, collect_processedIds now env _⟩

/-- Feed A for the C2 counterexample: yields one usable article. -/
def c2feedA : FeedRec :=
  { id := "A", name := "Feed A", url := "http://a/feed", isActive := true
    includeInSummary := true, status := "active", lastError := none, lastChecked := none }

/-- Feed B for the C2 counterexample: yields one raw item that is
filtered out for lack of a title, hence zero usable articles. -/
def c2feedB : FeedRec :=
  { id := "B", name := "Feed B", url := "http://b/feed", isActive := true
    includeInSummary := true, status := "active", lastError := none, lastChecked := none }

/-- Check environment for the C2 counterexample. -/
def c2env : String → Option (List RSSItem) := fun fid =>
  if fid = "A" then
    some [{ title := some "Good", link := none, pubDate := none
            content := some "body", contentSnippet := none }]
  else if fid = "B" then
    some [{ title := none, link := none, pubDate := none
            content := some "body", contentSnippet := none }]
  else none

/-- Claim C2 counterexample: feed B contributes no usable article
after filtering, yet its id is in `processedFeedIds` and it is counted
in `sourceCount`: the run succeeds with `sourceCount = 2` and
`feedIds = [A, B]`, while only one feed yielded a usable article. -/
theorem C2_counterexample :
    ((generateSummary [c2feedA, c2feedB] c2env .errored (fun _ => none) 0 "d" "s1" 0).toOption.map
        (fun r => (r.articleCount, r.sourceCount, r.feedIds)))
      = some (1, 2, ["A", "B"])
    ∧ specContributingIds 0 c2env [c2feedA, c2feedB] = ["A"]
    ∧ (specContributingIds 0 c2env [c2feedA, c2feedB]).length = 1 := by
  decide

/-- The record created by the C2 witness run. -/
def c2okRec : SummaryRec :=
  match generateSummary [c2feedA, c2feedB] c2env .errored (fun _ => none) 0 "d" "s1" 0 with
  | .ok r => r
  | .error _ => default

/-- Witness for C2 (amended): the concrete run above creates a record
with one article, pending email state, and both checked feeds counted
as sources. -/
theorem C2_amended_witness :
    c2okRec.emailSent = false
    ∧ c2okRec.emailError = none
    ∧ c2okRec.sourceCount = c2okRec.feedIds.length := by
  have h := C2_amended [c2feedA, c2feedB] c2env .errored (fun _ => none) 0 "d" "s1" 0
    c2okRec rfl
  exact ⟨h.2.1, h.2.2.1, h.2.2.2.2.1⟩

/-! ## Claim C3 -/

/-- Claim C3 (amended): for every feed whose fetch succeeds, the
collector keeps only items published within the last 24 hours (items
with no publish timestamp retained), caps the selection to the FIRST
10 such items in the order the feed document lists them (no sorting by
recency is performed), then keeps only items with a truthy title and a
truthy content or snippet — so a feed returning 15 qualifying items
contributes at most 10 articles, selected by document order. -/
theorem C3_amended_per_feed (now : Int) (items : List RSSItem) :
    (keptItems now items).length ≤ 10
    ∧ List.Sublist (keptItems now items) items
    ∧ (∀ it ∈ keptItems now items, itemRecent now it = true ∧ itemUsable it = true)
    ∧ keptItems now items = ((items.filter (itemRecent now)).take 10).filter itemUsable := by
  refine ⟨?_, ?_, ?_, rfl⟩
  · calc (((items.filter (itemRecent now)).take 10).filter itemUsable).length
        ≤ ((items.filter (itemRecent now)).take 10).length := List.length_filter_le _ _
      _ ≤ 10 := List.length_take_le _ _
  · exact ((List.filter_sublist _).trans (List.take_sublist _ _)).trans
      (List.filter_sublist _)
  · intro it hit
    have h1 : itemUsable it = true := (List.mem_filter.mp hit).2
    have h2 : it ∈ (items.filter (itemRecent now)).take 10 := (List.mem_filter.mp hit).1
    have h3 : it ∈ items.filter (itemRecent now) := List.mem_of_mem_take h2
    exact ⟨(List.mem_filter.mp h3).2, h1⟩

/-- Eleven qualifying items listed oldest first: item `k` carries
timestamp `1000 * k` and title `t<k>`. -/
def c3items : List RSSItem :=
  (List.range 11).map (fun k =>
    { title := some ("t" ++ Nat.repr (k + 1)), link := none
      pubDate := some ((1000 : Int) * (k + 1))
      content := some "c", contentSnippet := none })

/-- Claim C3 counterexample: with eleven items all qualifying (recent
and usable) listed oldest first, the collector keeps the first ten —
`t1` through `t10` — and drops `t11`, the item with the single largest
publish timestamp; the claimed selection of the 10 MOST RECENT items
would have kept `t11`. -/
theorem C3_counterexample :
    c3items.length = 11
    ∧ c3items.all (fun it => itemRecent 1000 it && itemUsable it) = true
    ∧ (keptItems 1000 c3items).map (fun it => it.title.getD "")
        = ["t1", "t2", "t3", "t4", "t5", "t6", "t7", "t8", "t9", "t10"]
    ∧ (c3items.map (fun it => it.pubDate.getD 0)).max? = some 11000
    ∧ (keptItems 1000 c3items).all (fun it => !(it.pubDate == some 11000)) = true := by
  decide

/-- Witness for C3 (amended), instantiated at the eleven-item feed:
the kept list has at most ten items and the first item is recent and
usable. -/
theorem C3_amended_witness :
    (keptItems 1000 c3items).length ≤ 10
    ∧ itemRecent 1000 { title := some "t1", link := none, pubDate := some 1000
                        content := some "c", contentSnippet := none } = true := by
  have h := C3_amended_per_feed 1000 c3items
  exact ⟨h.1, (h.2.2.1 _ (by decide)).1⟩

/-! ## Claim C4 -/

/-- Claim C4 (amended): for every non-empty article list with at least
one (truthy) source name, whenever the AI call outcome trips any check
of the validation chain — the call errored or timed out, the response
has no extractable text, the text does not parse as a JSON object, or
the parsed `content` field is missing, empty, or matches the
placeholder — the generator returns exactly the deterministic fallback
digest, whose title is `News Summary - <date>`, whose excerpt is
`Latest news from N article(s) across M source(s).` with correct
pluralization and M computed from the de-duplicated source names, and
whose body is the fixed document listing the source names and the
FIRST 5 article titles in collection order as bullets (not the 5 most
recent), plus the note that AI summarization was unavailable. -/
theorem C4_amended (articles : List ArticleData) (resp : AIResponse)
    (parse : String → Option Json) (dateStr : String)
    (_hne : articles ≠ [])
    (hM : 0 < (dedupKeepFirst ((articles.map (·.source)).filter truthyStr)).length)
    (hfail : aiPayloadRejected resp parse = true) :
    createAISummary articles resp parse dateStr = buildFallbackSummary articles dateStr
    ∧ (buildFallbackSummary articles dateStr).title = "News Summary - " ++ dateStr
    ∧ (buildFallbackSummary articles dateStr).excerpt
        = ("Latest news from " ++ Nat.repr articles.length ++ " article"
            ++ pluralS articles.length) ++ " "
          ++ ("across "
            ++ Nat.repr (dedupKeepFirst ((articles.map (·.source)).filter truthyStr)).length
            ++ " source"
            ++ pluralS (dedupKeepFirst ((articles.map (·.source)).filter truthyStr)).length
            ++ ".")
    ∧ (buildFallbackSummary articles dateStr).content
        = "# Latest News Summary\n\n**Sources:** "
          ++ String.intercalate ", " (dedupKeepFirst ((articles.map (·.source)).filter truthyStr))
          ++ "\n\n**Top Stories:**\n"
          ++ jsOrStr (String.intercalate "\n" ((articles.take 5).map (fun a => "• " ++ a.title)))
              "No articles were available to summarize."
          ++ "\n\nThis summary was generated from " ++ Nat.repr articles.length
          ++ " article" ++ pluralS articles.length ++ ". AI summarization was unavailable." := by
  refine ⟨?_, rfl, ?_, ?_⟩
  · -- the validation chain falls through to the fallback
    cases resp with
    | errored => rfl
    | noMessage => rfl
    | contentOther => rfl
    | contentStr s =>
        by_cases hraw : rawContentOf (.contentStr s) = ""
        · simp [createAISummary, hraw]
        · cases hp : parse (rawContentOf (.contentStr s)) with
          | none => simp [createAISummary, hraw, hp]
          | some j =>
              cases j with
              | obj fields =>
                  have hcond := by simpa [aiPayloadRejected, hraw, hp] using hfail
                  simp [createAISummary, hraw, hp, hcond]
              | null => simp [createAISummary, hraw, hp]
              | bool b => simp [createAISummary, hraw, hp]
              | num n => simp [createAISummary, hraw, hp]
              | str s2 => simp [createAISummary, hraw, hp]
              | arr xs => simp [createAISummary, hraw, hp]
    | contentParts ps =>
        by_cases hraw : rawContentOf (.contentParts ps) = ""
        · simp [createAISummary, hraw]
        · cases hp : parse (rawContentOf (.contentParts ps)) with
          | none => simp [createAISummary, hraw, hp]
          | some j =>
              cases j with
              | obj fields =>
                  have hcond := by simpa [aiPayloadRejected, hraw, hp] using hfail
                  simp [createAISummary, hraw, hp, hcond]
              | null => simp [createAISummary, hraw, hp]
              | bool b => simp [createAISummary, hraw, hp]
              | num n => simp [createAISummary, hraw, hp]
              | str s2 => simp [createAISummary, hraw, hp]
              | arr xs => simp [createAISummary, hraw, hp]
  · -- excerpt form when at least one source name exists
    have hhead : ∀ x : String,
        (("Latest news from " ++ Nat.repr articles.length ++ " article"
            ++ pluralS articles.length) ++ " " ++ x).data.head? = some 'L' := by
      intro x
      apply head_str_append
      apply head_str_append
      apply head_str_append
      apply head_str_append
      rfl
    have hlast : ∀ x : String,
        (x ++ ("across "
            ++ Nat.repr (dedupKeepFirst ((articles.map (·.source)).filter truthyStr)).length
            ++ " source"
            ++ pluralS (dedupKeepFirst ((articles.map (·.source)).filter truthyStr)).length
            ++ ".")).data.getLast? = some '.' := by
      intro x
      apply getLast_str_append
      apply getLast_str_append
      rfl
    show jsTrim _ = _
    rw [if_pos hM]
    exact jsTrim_eq_self _ 'L' '.' (hhead _) (hlast _) rfl rfl
  · -- body form when at least one source name exists
    show _ = _
    simp only [buildFallbackSummary]
    rw [if_pos hM]

/-- Six articles in collection order, oldest first; the sixth and most
recent one is titled `NEWEST`. -/
def c4articles : List ArticleData :=
  [ { title := "A1", content := "c", source := "S", link := none, pubDate := some 1 },
    { title := "A2", content := "c", source := "S", link := none, pubDate := some 2 },
    { title := "A3", content := "c", source := "S", link := none, pubDate := some 3 },
    { title := "A4", content := "c", source := "S", link := none, pubDate := some 4 },
    { title := "A5", content := "c", source := "S", link := none, pubDate := some 5 },
    { title := "NEWEST", content := "c", source := "S", link := none, pubDate := some 6 } ]

/-- Claim C4 counterexample: with six articles whose single most
recent one is titled `NEWEST`, the fallback body produced on a failed
AI call bullets the FIRST five titles in collection order — it
contains the oldest title `A1` but not `NEWEST`, so it does not list
the 5 most recent article titles as the claim states. -/
theorem C4_counterexample :
    (c4articles.map (fun a => a.pubDate.getD 0)).max? = some 6
    ∧ c4articles.all (fun a => (a.title == "NEWEST") == (a.pubDate == some 6)) = true
    ∧ containsSubstr (createAISummary c4articles .errored (fun _ => none) "d").content
        "NEWEST" = false
    ∧ containsSubstr (createAISummary c4articles .errored (fun _ => none) "d").content
        "A1" = true := by
  decide

/-- Witness for C4 (amended): an errored AI call on the six concrete
articles returns exactly the deterministic fallback, whose title
carries the date. -/
theorem C4_amended_witness :
    createAISummary c4articles .errored (fun _ => none) "d"
        = buildFallbackSummary c4articles "d"
    ∧ (buildFallbackSummary c4articles "d").title = "News Summary - d" := by
  have h := C4_amended c4articles .errored (fun _ => none) "d"
    (by decide) (by decide) rfl
  exact ⟨h.1, h.2.1⟩

/-! ## Claim C9 -/

/-! ### Prefix and occurrence helpers -/

/-- A list is a prefix of itself extended. -/
theorem isPrefixOf_self_append (l t : List Char) : l.isPrefixOf (l ++ t) = true := by
  rw [List.isPrefixOf_iff_prefix]
  exact List.prefix_append l t

/-- A prefix of a concatenation is a prefix of the left part or
extends it. -/
theorem isPrefixOf_append_or (p a b : List Char) (h : p.isPrefixOf (a ++ b) = true) :
    p.isPrefixOf a = true ∨ a.isPrefixOf p = true := by
  simp only [List.isPrefixOf_iff_prefix] at h ⊢
  exact List.prefix_or_prefix_of_prefix h (List.prefix_append a b)

/-- Transitivity of the prefix test. -/
theorem isPrefixOf_trans (p q l : List Char) (h1 : p.isPrefixOf q = true)
    (h2 : q.isPrefixOf l = true) : p.isPrefixOf l = true := by
  simp only [List.isPrefixOf_iff_prefix] at h1 h2 ⊢
  exact h1.trans h2

/-- A prefix no longer than the left part of a concatenation is a
prefix of that left part. -/
theorem isPrefixOf_left_of_le (p a b : List Char) (h : p.isPrefixOf (a ++ b) = true)
    (hl : p.length ≤ a.length) : p.isPrefixOf a = true := by
  simp only [List.isPrefixOf_iff_prefix] at h ⊢
  exact List.prefix_of_prefix_length_le h (List.prefix_append a b) hl

/-- The empty pattern occurs everywhere. -/
theorem occursIn_nil (v : List Char) : occursIn [] v = true := by
  induction v with
  | nil => rfl
  | cons c r ih => simp [occursIn, List.isPrefixOf]

/-- A pattern occurs in any string of which it is an inner segment. -/
theorem occursIn_of_decomp (pat u v : List Char) :
    occursIn pat (u ++ (pat ++ v)) = true := by
  induction u with
  | nil =>
      cases pat with
      | nil => simpa using occursIn_nil v
      | cons c pt => simp [occursIn, isPrefixOf_self_append]
  | cons c u2 ih => simp [occursIn, ih]

/-! ### Conditional step equations for the scanning passes -/

/-- The paragraph pass copies a head character that does not open a
double newline. -/
theorem paraChars_cons_ne (c : Char) (rest : List Char)
    (h : ¬ (['\n', '\n'].isPrefixOf (c :: rest) = true)) :
    paraChars (c :: rest) = c :: paraChars rest := by
  rw [paraChars.eq_def]
  split
  · rename_i rest2 heq
    exfalso
    apply h
    rw [show (c :: rest) = '\n' :: '\n' :: rest2 from heq]
    simp [List.isPrefixOf]
  · rename_i c2 rest2 hno heq
    injection heq with h1 h2
    subst h1; subst h2
    rfl
  · rename_i heq
    exact absurd heq (by simp)

/-- The removal pass copies a head character that does not open the
literal `<p></p>`. -/
theorem removeEmptyP_cons_ne (c : Char) (rest : List Char)
    (h : ¬ ("<p></p>".data.isPrefixOf (c :: rest) = true)) :
    removeEmptyP (c :: rest) = c :: removeEmptyP rest := by
  rw [removeEmptyP.eq_def]
  split
  · rename_i rest2 heq
    exfalso
    apply h
    rw [show (c :: rest) = '<' :: 'p' :: '>' :: '<' :: '/' :: 'p' :: '>' :: rest2 from heq]
    simp [List.isPrefixOf]
  · rename_i c2 rest2 hno heq
    injection heq with h1 h2
    subst h1; subst h2
    rfl
  · rename_i heq
    exact absurd heq (by simp)

/-- The removal pass deletes a leading literal `<p></p>`. -/
theorem removeEmptyP_fire (rest : List Char) :
    removeEmptyP ("<p></p>".data ++ rest) = removeEmptyP rest := rfl

/-! ### Line split and join -/

/-- The splitter on a line head that is not a newline. -/
theorem splitLines_cons_ne (c : Char) (r : List Char) (hc : c ≠ '\n') :
    splitLinesChars (c :: r)
      = (match splitLinesChars r with
        | [] => [[c]]
        | l :: ls => (c :: l) :: ls) := by
  rw [splitLinesChars.eq_def]
  split
  · rename_i heq
    exact absurd heq (by simp)
  · rename_i rest heq
    injection heq with h1 h2
    exact absurd h1 hc
  · rename_i c2 rest hno heq
    injection heq with h1 h2
    subst h1; subst h2
    rfl

/-- Splitting never yields an empty list of lines. -/
theorem splitLines_ne_nil (l : List Char) : splitLinesChars l ≠ [] := by
  induction l with
  | nil => simp [splitLinesChars]
  | cons c r ih =>
      by_cases hc : c = '\n'
      · subst hc
        simp [splitLinesChars]
      · rw [splitLines_cons_ne c r hc]
        cases hsp : splitLinesChars r with
        | nil => simp
        | cons a as => simp

/-- Splitting a newline-free list yields that single line. -/
theorem splitLines_single (x : List Char) (h : ('\n' ∈ x) → False) :
    splitLinesChars x = [x] := by
  induction x with
  | nil => rfl
  | cons c r ih =>
      have hc : c ≠ '\n' := fun he => h (he ▸ List.mem_cons_self c r)
      rw [splitLines_cons_ne c r hc, ih (fun he => h (List.mem_cons_of_mem c he))]

/-- Splitting distributes over a newline-free prefix. -/
theorem splitLines_append (x : List Char) (hx : ('\n' ∈ x) → False) :
    ∀ (r a : List Char) (as : List (List Char)), splitLinesChars r = a :: as →
    splitLinesChars (x ++ r) = (x ++ a) :: as := by
  induction x with
  | nil => intro r a as h; simpa using h
  | cons c x2 ih =>
      intro r a as h
      have hc : c ≠ '\n' := fun he => hx (he ▸ List.mem_cons_self c x2)
      have ih2 := ih (fun he => hx (List.mem_cons_of_mem c he)) r a as h
      rw [List.cons_append, splitLines_cons_ne c _ hc, ih2]
      rfl

/-- Every line produced by splitting is newline-free. -/
theorem mem_splitLines_no_newline (s : List Char) :
    ∀ l ∈ splitLinesChars s, ('\n' ∈ l) → False := by
  induction s with
  | nil =>
      intro l hl
      simp only [splitLinesChars, List.mem_singleton] at hl
      subst hl
      simp
  | cons c r ih =>
      by_cases hc : c = '\n'
      · subst hc
        intro l hl
        rw [show splitLinesChars ('\n' :: r) = [] :: splitLinesChars r from rfl] at hl
        rcases List.mem_cons.mp hl with h | h
        · subst h; simp
        · exact ih l h
      · intro l hl
        rw [splitLines_cons_ne c r hc] at hl
        cases hsp : splitLinesChars r with
        | nil => exact absurd hsp (splitLines_ne_nil r)
        | cons a as =>
            rw [hsp] at hl
            rcases List.mem_cons.mp hl with h | h
            · subst h
              intro hnl
              rcases List.mem_cons.mp hnl with h | h
              · exact hc h.symm
              · exact ih a (hsp ▸ List.mem_cons_self a as) h
            · exact ih l (hsp ▸ List.mem_cons_of_mem a h)

/-- Joining a single line. -/
theorem jl_single (x : List Char) : joinLinesChars [x] = x := by
  simp [joinLinesChars, List.intercalate]

/-- Joining two or more lines. -/
theorem jl_cons_cons (x y : List Char) (t : List (List Char)) :
    joinLinesChars (x :: y :: t) = x ++ '\n' :: joinLinesChars (y :: t) := by
  simp [joinLinesChars, List.intercalate, List.intersperse]

/-- A head character moves through the join. -/
theorem jl_cons_head (c : Char) (a : List Char) (as : List (List Char)) :
    joinLinesChars ((c :: a) :: as) = c :: joinLinesChars (a :: as) := by
  cases as with
  | nil => rw [jl_single, jl_single]
  | cons b bs => rw [jl_cons_cons, jl_cons_cons]; rfl

/-- Joining the split lines recovers the string. -/
theorem jl_sl (s : List Char) : joinLinesChars (splitLinesChars s) = s := by
  induction s with
  | nil => rw [show splitLinesChars [] = [[]] from rfl, jl_single]
  | cons c r ih =>
      by_cases hc : c = '\n'
      · subst hc
        rw [show splitLinesChars ('\n' :: r) = [] :: splitLinesChars r from rfl]
        cases hsp : splitLinesChars r with
        | nil => exact absurd hsp (splitLines_ne_nil r)
        | cons a as =>
            rw [hsp] at ih
            rw [jl_cons_cons]
            simp [ih]
      · rw [splitLines_cons_ne c r hc]
        cases hsp : splitLinesChars r with
        | nil => exact absurd hsp (splitLines_ne_nil r)
        | cons a as =>
            rw [hsp] at ih
            rw [jl_cons_head, ih]

/-- Splitting the join of newline-free lines recovers the lines. -/
theorem sl_jl (ls : List (List Char)) (h : ∀ l ∈ ls, ('\n' ∈ l) → False)
    (hne : ls ≠ []) : splitLinesChars (joinLinesChars ls) = ls := by
  induction ls with
  | nil => exact absurd rfl hne
  | cons x t ih =>
      cases t with
      | nil =>
          rw [jl_single]
          exact splitLines_single x (h x (List.mem_cons_self x []))
      | cons y t2 =>
          rw [jl_cons_cons]
          have hx : ('\n' ∈ x) → False := h x (List.mem_cons_self _ _)
          have ih2 : splitLinesChars (joinLinesChars (y :: t2)) = y :: t2 :=
            ih (fun l hl => h l (List.mem_cons_of_mem x hl)) (by simp)
          rw [splitLines_append x hx ('\n' :: joinLinesChars (y :: t2)) []
            (splitLinesChars (joinLinesChars (y :: t2))) rfl, ih2]
          simp

/-- An anchored per-line pass on a join of newline-free lines maps the
lines. -/
theorem mapLines_jl (f : List Char → List Char) (ls : List (List Char))
    (h : ∀ l ∈ ls, ('\n' ∈ l) → False) (hne : ls ≠ []) :
    mapLines f (joinLinesChars ls) = joinLinesChars (ls.map f) := by
  unfold mapLines
  rw [sl_jl ls h hne]

/-- A line of the join is an inner segment of the joined string. -/
theorem join_decomp (ps : List (List Char)) (L : List Char) (qs : List (List Char)) :
    ∃ U V, joinLinesChars (ps ++ L :: qs) = U ++ (L ++ V) := by
  induction ps with
  | nil =>
      cases qs with
      | nil => exact ⟨[], [], by simp [jl_single]⟩
      | cons q t => exact ⟨[], '\n' :: joinLinesChars (q :: t), by simp [jl_cons_cons]⟩
  | cons p ps2 ih =>
      obtain ⟨U, V, hUV⟩ := ih
      cases hm : ps2 ++ L :: qs with
      | nil => exact absurd hm (by simp)
      | cons m t =>
          refine ⟨p ++ '\n' :: U, V, ?_⟩
          rw [List.cons_append, hm, jl_cons_cons, ← hm, hUV]
          simp [List.append_assoc]

/-- A newline-free inner segment of a string lies inside one of its
lines. -/
theorem sl_infix (pat : List Char) (hnl : ('\n' ∈ pat) → False) :
    ∀ (u v : List Char), ∃ a b, (a ++ (pat ++ b)) ∈ splitLinesChars (u ++ (pat ++ v)) := by
  intro u
  induction u with
  | nil =>
      intro v
      cases hsp : splitLinesChars v with
      | nil => exact absurd hsp (splitLines_ne_nil v)
      | cons a as =>
          refine ⟨[], a, ?_⟩
          rw [List.nil_append, splitLines_append pat hnl v a as hsp]
          exact List.mem_cons_self _ _
  | cons c u2 ih =>
      intro v
      by_cases hc : c = '\n'
      · subst hc
        obtain ⟨a, b, hmem⟩ := ih v
        rw [List.cons_append,
          show splitLinesChars ('\n' :: (u2 ++ (pat ++ v)))
            = [] :: splitLinesChars (u2 ++ (pat ++ v)) from rfl]
        exact ⟨a, b, List.mem_cons_of_mem _ hmem⟩
      · obtain ⟨a, b, hmem⟩ := ih v
        rw [List.cons_append, splitLines_cons_ne c _ hc]
        cases hsp : splitLinesChars (u2 ++ (pat ++ v)) with
        | nil => exact absurd hsp (splitLines_ne_nil _)
        | cons a0 as0 =>
            rw [hsp] at hmem
            rcases List.mem_cons.mp hmem with h | h
            · exact ⟨c :: a, b,
                List.mem_cons.mpr (Or.inl (by rw [List.cons_append, h]))⟩
            · exact ⟨a, b, List.mem_cons_of_mem _ h⟩

/-- A pattern inside a member line occurs in the join. -/
theorem occursIn_jl_of_mem (pat a b : List Char) (ls : List (List Char))
    (h : (a ++ (pat ++ b)) ∈ ls) : occursIn pat (joinLinesChars ls) = true := by
  obtain ⟨ps, qs, hpq⟩ := List.append_of_mem h
  obtain ⟨U, V, hUV⟩ := join_decomp ps (a ++ (pat ++ b)) qs
  rw [hpq, hUV]
  have he : U ++ ((a ++ (pat ++ b)) ++ V) = (U ++ a) ++ (pat ++ (b ++ V)) := by
    simp [List.append_assoc]
  rw [he]
  exact occursIn_of_decomp pat (U ++ a) (b ++ V)

/-! ### Survival through the paragraph pass -/

/-- A cons prefix forces equal heads. -/
theorem isPrefixOf_head_eq (a b : Char) (as bs : List Char)
    (h : (a :: as).isPrefixOf (b :: bs) = true) : a = b := by
  rw [show ((a :: as).isPrefixOf (b :: bs)) = ((a == b) && as.isPrefixOf bs) from rfl] at h
  cases h2 : (a == b) with
  | false => rw [h2, Bool.false_and] at h; exact absurd h (by simp)
  | true => exact beq_iff_eq.mp h2

/-- A cons prefix forces prefix tails. -/
theorem isPrefixOf_tail (a b : Char) (as bs : List Char)
    (h : (a :: as).isPrefixOf (b :: bs) = true) : as.isPrefixOf bs = true := by
  rw [show ((a :: as).isPrefixOf (b :: bs)) = ((a == b) && as.isPrefixOf bs) from rfl] at h
  cases h2 : (as.isPrefixOf bs) with
  | true => rfl
  | false => rw [h2, Bool.and_false] at h; exact absurd h (by simp)

/-- The paragraph pass copies a leading newline-free block. -/
theorem para_copy (pat : List Char) (hp : ('\n' ∈ pat) → False) (v : List Char) :
    paraChars (pat ++ v) = pat ++ paraChars v := by
  induction pat with
  | nil => rfl
  | cons c pt ih =>
      have hc : c ≠ '\n' := fun he => hp (he ▸ List.mem_cons_self c pt)
      rw [List.cons_append, paraChars_cons_ne c _ (by simp [List.isPrefixOf, Ne.symm hc])]
      rw [ih (fun he => hp (List.mem_cons_of_mem c he))]
      rfl

/-- A newline-free inner segment survives the paragraph pass. -/
theorem para_decomp (pat : List Char) (hp : ('\n' ∈ pat) → False) (hne : pat ≠ []) :
    ∀ (u v : List Char), ∃ u2 v2, paraChars (u ++ (pat ++ v)) = u2 ++ (pat ++ v2) := by
  suffices h : ∀ (n : Nat) (u v : List Char), u.length ≤ n →
      ∃ u2 v2, paraChars (u ++ (pat ++ v)) = u2 ++ (pat ++ v2) by
    intro u v
    exact h u.length u v (Nat.le_refl _)
  intro n
  induction n with
  | zero =>
      intro u v hu
      have he : u = [] := List.eq_nil_of_length_eq_zero (Nat.le_zero.mp hu)
      subst he
      exact ⟨[], paraChars v, by
        rw [List.nil_append, para_copy pat hp v, List.nil_append]⟩
  | succ n ih =>
      intro u v hu
      match u with
      | [] => exact ⟨[], paraChars v, by
          rw [List.nil_append, para_copy pat hp v, List.nil_append]⟩
      | c :: u0 =>
          by_cases hfire : (['\n', '\n'].isPrefixOf (c :: (u0 ++ (pat ++ v)))) = true
          · have hc : c = '\n' := by
              simp [List.isPrefixOf] at hfire
              exact hfire.1.symm
            subst hc
            match u0 with
            | [] =>
                exfalso
                cases hpat : pat with
                | nil => exact hne hpat
                | cons p pt =>
                    rw [hpat] at hfire
                    simp [List.isPrefixOf] at hfire
                    exact hp (by rw [hpat, hfire]; exact List.mem_cons_self _ _)
            | d :: u1 =>
                have hd : d = '\n' := by
                  simp [List.isPrefixOf] at hfire
                  exact hfire.symm
                subst hd
                obtain ⟨u2, v2, h2⟩ := ih u1 v (by simp at hu; omega)
                refine ⟨"</p><p>".data ++ u2, v2, ?_⟩
                rw [show (('\n' :: '\n' :: u1 : List Char) ++ (pat ++ v))
                  = '\n' :: '\n' :: (u1 ++ (pat ++ v)) from rfl]
                rw [show paraChars ('\n' :: '\n' :: (u1 ++ (pat ++ v)))
                  = "</p><p>".data ++ paraChars (u1 ++ (pat ++ v)) from rfl]
                rw [h2, List.append_assoc]
          · rw [List.cons_append, paraChars_cons_ne c _ hfire]
            obtain ⟨u2, v2, h2⟩ := ih u0 v (by simp at hu; omega)
            exact ⟨c :: u2, v2, by rw [h2]; rfl⟩

/-! ### Survival through the empty-paragraph removal pass -/

/-- The tail of a pair-free list is pair-free. -/
theorem noSeqLP_tail (a : Char) (r : List Char) (h : noSeqLP (a :: r) = true) :
    noSeqLP r = true := by
  cases r with
  | nil => rfl
  | cons b r2 =>
      rw [show noSeqLP (a :: b :: r2)
        = (!(a == '<' && b == 'p') && noSeqLP (b :: r2)) from rfl] at h
      simp only [Bool.and_eq_true] at h
      exact h.2

/-- In a pair-free list, `<p` starts at no position. -/
theorem noSeqLP_drop (l : List Char) (h : noSeqLP l = true) :
    ∀ k, ¬ (['<', 'p'].isPrefixOf (l.drop k) = true) := by
  intro k
  induction k generalizing l with
  | zero =>
      cases l with
      | nil => simp [List.isPrefixOf]
      | cons a r =>
          cases r with
          | nil => simp [List.isPrefixOf]
          | cons b r2 =>
              rw [show noSeqLP (a :: b :: r2)
                = (!(a == '<' && b == 'p') && noSeqLP (b :: r2)) from rfl] at h
              simp only [Bool.and_eq_true] at h
              have h1 := h.1
              rw [List.drop_zero]
              intro hpre
              have ha := isPrefixOf_head_eq _ _ _ _ hpre
              have hb := isPrefixOf_head_eq _ _ _ _ (isPrefixOf_tail _ _ _ _ hpre)
              rw [← ha, ← hb] at h1
              exact absurd h1 (by decide)
  | succ k ih =>
      cases l with
      | nil => simp [List.isPrefixOf]
      | cons a r =>
          rw [show (a :: r).drop (k + 1) = r.drop k from rfl]
          exact ih r (noSeqLP_tail a r h)

/-- Prepending characters other than `<` never creates a `<p` pair. -/
theorem noSeqLP_append_left (x : List Char) (hx : ('<' ∈ x) → False) (r : List Char) :
    noSeqLP (x ++ r) = noSeqLP r := by
  induction x with
  | nil => rfl
  | cons c x2 ih =>
      have hc : c ≠ '<' := fun he => hx (he ▸ List.mem_cons_self _ _)
      have ih2 := ih (fun he => hx (List.mem_cons_of_mem c he))
      cases hxr : x2 ++ r with
      | nil =>
          rw [List.cons_append, hxr, (List.append_eq_nil.mp hxr).2]
          rfl
      | cons d rest =>
          rw [List.cons_append, hxr,
            show noSeqLP (c :: d :: rest)
              = (!(c == '<' && d == 'p') && noSeqLP (d :: rest)) from rfl,
            beq_eq_false_iff_ne.mpr hc]
          rw [← hxr, ih2]
          simp

/-- A list whose last element is known cannot shed to a different
singleton. -/
theorem drop_ne_single (l : List Char) (c c2 : Char) (hgl : l.getLast? = some c)
    (hne : c ≠ c2) : ∀ k, l.drop k ≠ [c2] := by
  intro k h
  have he : l = l.take k ++ [c2] := by rw [← h, List.take_append_drop]
  rw [he, List.getLast?_concat] at hgl
  exact hne (Option.some.inj hgl).symm

/-- The removal pass copies a block in which `<p` never starts and
which does not end in a bare `<`. -/
theorem removeP_copy (pat : List Char)
    (hA : ∀ k, ¬ (['<', 'p'].isPrefixOf (pat.drop k) = true))
    (hlast : ∀ k, pat.drop k ≠ ['<']) (v : List Char) :
    removeEmptyP (pat ++ v) = pat ++ removeEmptyP v := by
  induction pat with
  | nil => rfl
  | cons c pt ih =>
      have hnofire : ¬ ("<p></p>".data.isPrefixOf (c :: (pt ++ v)) = true) := by
        intro hfire
        rcases isPrefixOf_append_or "<p></p>".data (c :: pt) v hfire with h1 | h2
        · exact hA 0 (isPrefixOf_trans _ _ _ (by decide) h1)
        · cases pt with
          | nil =>
              simp [List.isPrefixOf] at h2
              exact hlast 0 (by rw [List.drop_zero, h2])
          | cons d pt2 =>
              simp [List.isPrefixOf] at h2
              exact hA 0 (by simp [List.isPrefixOf, h2.1, h2.2.1])
      rw [List.cons_append, removeEmptyP_cons_ne c _ hnofire]
      rw [ih (fun k => hA (k + 1)) (fun k => hlast (k + 1))]
      rfl

/-- An inner segment in which `<p` never starts, not ending in a bare
`<` and opening with `<` followed by neither `p` nor `/`, survives the
removal pass. -/
theorem removeP_decomp (pat : List Char) (d2 : Char) (pt : List Char)
    (hshape : pat = '<' :: d2 :: pt) (hd2s : d2 ≠ '/')
    (hA : ∀ k, ¬ (['<', 'p'].isPrefixOf (pat.drop k) = true))
    (hlast : ∀ k, pat.drop k ≠ ['<']) :
    ∀ (u v : List Char), ∃ u2 v2, removeEmptyP (u ++ (pat ++ v)) = u2 ++ (pat ++ v2) := by
  suffices h : ∀ (n : Nat) (u v : List Char), u.length ≤ n →
      ∃ u2 v2, removeEmptyP (u ++ (pat ++ v)) = u2 ++ (pat ++ v2) by
    intro u v
    exact h u.length u v (Nat.le_refl _)
  intro n
  induction n with
  | zero =>
      intro u v hu
      have he : u = [] := List.eq_nil_of_length_eq_zero (Nat.le_zero.mp hu)
      subst he
      exact ⟨[], removeEmptyP v, by
        rw [List.nil_append, removeP_copy pat hA hlast v, List.nil_append]⟩
  | succ n ih =>
      intro u v hu
      match u with
      | [] => exact ⟨[], removeEmptyP v, by
          rw [List.nil_append, removeP_copy pat hA hlast v, List.nil_append]⟩
      | c :: u0 =>
          by_cases hfire : ("<p></p>".data.isPrefixOf ((c :: u0) ++ (pat ++ v))) = true
          · by_cases hlen : 7 ≤ (c :: u0).length
            · have hpu : "<p></p>".data.isPrefixOf (c :: u0) = true :=
                isPrefixOf_left_of_le _ _ _ hfire hlen
              obtain ⟨t, ht⟩ := List.isPrefixOf_iff_prefix.mp hpu
              have hlt : 7 + t.length = u0.length + 1 := by
                have h3 := congrArg List.length ht
                simp at h3
                omega
              obtain ⟨u2, v2, h2⟩ := ih t v
                (by simp only [List.length_cons] at hu; omega)
              refine ⟨u2, v2, ?_⟩
              rw [← ht, List.append_assoc, removeEmptyP_fire, h2]
            · exfalso
              have hu_trig : (c :: u0).isPrefixOf "<p></p>".data = true := by
                rcases isPrefixOf_append_or "<p></p>".data (c :: u0) (pat ++ v) hfire
                  with h1 | h2
                · exfalso
                  have h6 := (List.isPrefixOf_iff_prefix.mp h1).length_le
                  simp at h6
                  simp only [List.length_cons] at hlen
                  omega
                · exact h2
              obtain ⟨t, ht⟩ := List.isPrefixOf_iff_prefix.mp hu_trig
              have htpv : t.isPrefixOf (pat ++ v) = true := by
                rw [← ht] at hfire
                simp only [List.isPrefixOf_iff_prefix] at hfire ⊢
                exact (List.prefix_append_right_inj (c :: u0)).mp hfire
              have htd : t = "<p></p>".data.drop (c :: u0).length := by
                have h4 := congrArg (List.drop (c :: u0).length) ht
                rw [List.drop_left] at h4
                exact h4
              have hm : (c :: u0).length = 1 ∨ (c :: u0).length = 2
                  ∨ (c :: u0).length = 3 ∨ (c :: u0).length = 4
                  ∨ (c :: u0).length = 5 ∨ (c :: u0).length = 6 := by
                simp only [List.length_cons] at hlen ⊢
                omega
              rcases hm with h | h | h | h | h | h
              · rw [h, show "<p></p>".data.drop 1
                  = 'p' :: '>' :: '<' :: '/' :: 'p' :: '>' :: [] from rfl] at htd
                subst htd
                rcases isPrefixOf_append_or _ pat v htpv with hp | hp
                · rw [hshape] at hp
                  exact absurd (isPrefixOf_head_eq _ _ _ _ hp) (by decide)
                · rw [hshape] at hp
                  exact absurd (isPrefixOf_head_eq _ _ _ _ hp) (by decide)
              · rw [h, show "<p></p>".data.drop 2
                  = '>' :: '<' :: '/' :: 'p' :: '>' :: [] from rfl] at htd
                subst htd
                rcases isPrefixOf_append_or _ pat v htpv with hp | hp
                · rw [hshape] at hp
                  exact absurd (isPrefixOf_head_eq _ _ _ _ hp) (by decide)
                · rw [hshape] at hp
                  exact absurd (isPrefixOf_head_eq _ _ _ _ hp) (by decide)
              · rw [h, show "<p></p>".data.drop 3
                  = '<' :: '/' :: 'p' :: '>' :: [] from rfl] at htd
                subst htd
                rcases isPrefixOf_append_or _ pat v htpv with hp | hp
                · rw [hshape] at hp
                  have h5 := isPrefixOf_head_eq _ _ _ _ (isPrefixOf_tail _ _ _ _ hp)
                  exact hd2s h5.symm
                · rw [hshape] at hp
                  have h5 := isPrefixOf_head_eq _ _ _ _ (isPrefixOf_tail _ _ _ _ hp)
                  exact hd2s h5
              · rw [h, show "<p></p>".data.drop 4
                  = '/' :: 'p' :: '>' :: [] from rfl] at htd
                subst htd
                rcases isPrefixOf_append_or _ pat v htpv with hp | hp
                · rw [hshape] at hp
                  exact absurd (isPrefixOf_head_eq _ _ _ _ hp) (by decide)
                · rw [hshape] at hp
                  exact absurd (isPrefixOf_head_eq _ _ _ _ hp) (by decide)
              · rw [h, show "<p></p>".data.drop 5
                  = 'p' :: '>' :: [] from rfl] at htd
                subst htd
                rcases isPrefixOf_append_or _ pat v htpv with hp | hp
                · rw [hshape] at hp
                  exact absurd (isPrefixOf_head_eq _ _ _ _ hp) (by decide)
                · rw [hshape] at hp
                  exact absurd (isPrefixOf_head_eq _ _ _ _ hp) (by decide)
              · rw [h, show "<p></p>".data.drop 6
                  = '>' :: [] from rfl] at htd
                subst htd
                rcases isPrefixOf_append_or _ pat v htpv with hp | hp
                · rw [hshape] at hp
                  exact absurd (isPrefixOf_head_eq _ _ _ _ hp) (by decide)
                · rw [hshape] at hp
                  exact absurd (isPrefixOf_head_eq _ _ _ _ hp) (by decide)
          · rw [List.cons_append,
              removeEmptyP_cons_ne c (u0 ++ (pat ++ v)) (by exact hfire)]
            obtain ⟨u2, v2, h2⟩ := ih u0 v (by simp at hu; omega)
            exact ⟨c :: u2, v2, by rw [h2]; rfl⟩

/-! ### Survival through the heading-unwrap pass -/

/-- If a line ending in `</hc></p>` holds a segment whose last two
characters are `d1 >` with `d1 ≠ 'p'`, at least four characters follow
the segment on the line. -/
theorem suffix_forces_len (pat : List Char) (d2 d1 : Char) (mid : List Char)
    (hshape : pat = '<' :: d2 :: (mid ++ [d1, '>'])) (hd1 : d1 ≠ 'p')
    (u v t : List Char) (c : Char)
    (ht : t ++ ('<' :: '/' :: 'h' :: c :: '>' :: '<' :: '/' :: 'p' :: '>' :: [])
      = u ++ (pat ++ v)) :
    4 ≤ v.length := by
  rcases Nat.lt_or_ge v.length 4 with hv | hv
  swap
  · exact hv
  exfalso
  have h0 := congrArg List.reverse ht
  simp only [List.reverse_append, List.reverse_cons, List.reverse_nil,
    List.nil_append, List.append_assoc, List.cons_append] at h0
  have hpfx : ('>' :: 'p' :: '/' :: '<' :: '>' :: c :: 'h' :: '/' :: '<' :: []).isPrefixOf
      (v.reverse ++ (pat.reverse ++ u.reverse)) = true := by
    have h1 : ('>' :: 'p' :: '/' :: '<' :: '>' :: c :: 'h' :: '/' :: '<' :: []) ++ t.reverse
        = v.reverse ++ (pat.reverse ++ u.reverse) := by
      rw [← h0]
      simp [List.reverse_append]
    rw [← h1]
    exact isPrefixOf_self_append _ _
  rcases isPrefixOf_append_or _ v.reverse _ hpfx with hp1 | hp2
  · have h9 := (List.isPrefixOf_iff_prefix.mp hp1).length_le
    simp at h9
    omega
  · obtain ⟨s, hsv⟩ := List.isPrefixOf_iff_prefix.mp hp2
    have hsp : s.isPrefixOf (pat.reverse ++ u.reverse) = true := by
      rw [← hsv] at hpfx
      simp only [List.isPrefixOf_iff_prefix] at hpfx ⊢
      exact (List.prefix_append_right_inj v.reverse).mp hpfx
    have hsd : s = ('>' :: 'p' :: '/' :: '<' :: '>' :: c :: 'h' :: '/' :: '<' :: []).drop
        v.reverse.length := by
      have h4 := congrArg (List.drop v.reverse.length) hsv
      rw [List.drop_left] at h4
      exact h4
    have hprev : pat.reverse = '>' :: d1 :: (mid.reverse ++ (d2 :: '<' :: [])) := by
      rw [hshape]
      simp
    have hm : v.reverse.length = 0 ∨ v.reverse.length = 1 ∨ v.reverse.length = 2
        ∨ v.reverse.length = 3 := by
      simp only [List.length_reverse]
      omega
    rcases hm with h | h | h | h
    · rw [h, List.drop_zero] at hsd
      subst hsd
      rw [hprev] at hsp
      have h5 := isPrefixOf_head_eq _ _ _ _ (isPrefixOf_tail _ _ _ _ hsp)
      exact hd1 h5.symm
    · rw [h, show ('>' :: 'p' :: '/' :: '<' :: '>' :: c :: 'h' :: '/' :: '<' :: []).drop 1
        = 'p' :: '/' :: '<' :: '>' :: c :: 'h' :: '/' :: '<' :: [] from rfl] at hsd
      subst hsd
      rw [hprev] at hsp
      exact absurd (isPrefixOf_head_eq _ _ _ _ hsp) (by decide)
    · rw [h, show ('>' :: 'p' :: '/' :: '<' :: '>' :: c :: 'h' :: '/' :: '<' :: []).drop 2
        = '/' :: '<' :: '>' :: c :: 'h' :: '/' :: '<' :: [] from rfl] at hsd
      subst hsd
      rw [hprev] at hsp
      exact absurd (isPrefixOf_head_eq _ _ _ _ hsp) (by decide)
    · rw [h, show ('>' :: 'p' :: '/' :: '<' :: '>' :: c :: 'h' :: '/' :: '<' :: []).drop 3
        = '<' :: '>' :: c :: 'h' :: '/' :: '<' :: [] from rfl] at hsd
      subst hsd
      rw [hprev] at hsp
      exact absurd (isPrefixOf_head_eq _ _ _ _ hsp) (by decide)

/-- An inner segment of the shape `<x … y>` with `x ∉ {p}` and
`y ≠ p` survives the heading-unwrap pass on its line. -/
theorem unwrap_preserves (pat : List Char) (d2 d1 : Char) (mid : List Char)
    (hshape : pat = '<' :: d2 :: (mid ++ [d1, '>']))
    (hd2 : d2 ≠ 'p') (hd1 : d1 ≠ 'p') (u v : List Char) :
    ∃ a b, unwrapHeadingLine (u ++ (pat ++ v)) = a ++ (pat ++ b) := by
  rw [unwrapHeadingLine]
  split
  · rename_i hcond
    simp only [Bool.and_eq_true, Bool.or_eq_true, decide_eq_true_eq] at hcond
    obtain ⟨⟨⟨⟨hlen, hpre⟩, hdig⟩, hgt⟩, hsuf⟩ := hcond
    have hu3 : 3 ≤ u.length := by
      rcases u with _ | ⟨x, u1⟩
      · exfalso
        rw [hshape] at hpre
        have hpre2 : ('<' :: 'p' :: '>' :: '<' :: 'h' :: []).isPrefixOf
            ('<' :: d2 :: ((mid ++ [d1, '>']) ++ v)) = true := by exact hpre
        have h5 := isPrefixOf_head_eq _ _ _ _ (isPrefixOf_tail _ _ _ _ hpre2)
        exact hd2 h5.symm
      rcases u1 with _ | ⟨y, u2⟩
      · exfalso
        rw [hshape] at hpre
        have hpre2 : ('<' :: 'p' :: '>' :: '<' :: 'h' :: []).isPrefixOf
            (x :: '<' :: (d2 :: ((mid ++ [d1, '>']) ++ v))) = true := by exact hpre
        exact absurd (isPrefixOf_head_eq _ _ _ _ (isPrefixOf_tail _ _ _ _ hpre2))
          (by decide)
      rcases u2 with _ | ⟨z, u3⟩
      · exfalso
        rw [hshape] at hpre
        have hpre2 : ('<' :: 'p' :: '>' :: '<' :: 'h' :: []).isPrefixOf
            (x :: y :: '<' :: (d2 :: ((mid ++ [d1, '>']) ++ v))) = true := by exact hpre
        exact absurd
          (isPrefixOf_head_eq _ _ _ _
            (isPrefixOf_tail _ _ _ _ (isPrefixOf_tail _ _ _ _ hpre2)))
          (by decide)
      · simp only [List.length_cons]
        omega
    have hv4 : 4 ≤ v.length := by
      rcases hsuf with (hs | hs) | hs
      · rw [List.isSuffixOf_iff_suffix] at hs
        obtain ⟨t, ht⟩ := hs
        exact suffix_forces_len pat d2 d1 mid hshape hd1 u v t '1' (by exact ht)
      · rw [List.isSuffixOf_iff_suffix] at hs
        obtain ⟨t, ht⟩ := hs
        exact suffix_forces_len pat d2 d1 mid hshape hd1 u v t '2' (by exact ht)
      · rw [List.isSuffixOf_iff_suffix] at hs
        obtain ⟨t, ht⟩ := hs
        exact suffix_forces_len pat d2 d1 mid hshape hd1 u v t '3' (by exact ht)
    refine ⟨u.drop 3, v.take (v.length - 4), ?_⟩
    have h1 : (u.drop 3).length ≤ (u ++ (pat ++ v)).length - 7 := by
      simp [hshape]
      omega
    have h2 : pat.length ≤ (u ++ (pat ++ v)).length - 7 - (u.drop 3).length := by
      simp [hshape]
      omega
    rw [List.drop_append_of_le_length hu3, List.take_append_eq_append_take,
      List.take_of_length_le h1, List.take_append_eq_append_take,
      List.take_of_length_le h2]
    have hidx : (u ++ (pat ++ v)).length - 7 - (u.drop 3).length - pat.length
        = v.length - 4 := by
      simp [hshape]
      omega
    rw [hidx]
  · exact ⟨u, v, rfl⟩

/-! ### Per-line computation of the front passes -/

/-- The scan of a nonempty pattern over the empty list. -/
theorem occIdxGo_pat_nil (pt : List Char) (i : Nat) : occIdxGo ('*' :: pt) [] i = [] := rfl

/-- One scanning step. -/
theorem occIdxGo_step (pt : List Char) (c : Char) (rest : List Char) (i : Nat) :
    occIdxGo ('*' :: pt) (c :: rest) i
      = (if ('*' :: pt).isPrefixOf (c :: rest) then [i] else [])
        ++ occIdxGo ('*' :: pt) rest (i + 1) := rfl

/-- A star pattern never occurs in a star-free list. -/
theorem occIdxGo_star_nil (pt l : List Char) (i : Nat) (h : ('*' ∈ l) → False) :
    occIdxGo ('*' :: pt) l i = [] := by
  induction l generalizing i with
  | nil => rfl
  | cons c rest ih =>
      have hc : ¬ (('*' :: pt).isPrefixOf (c :: rest) = true) := by
        intro hp
        exact h (by rw [isPrefixOf_head_eq _ _ _ _ hp]; exact List.mem_cons_self _ _)
      rw [occIdxGo_step, if_neg hc, ih (i + 1) (fun hm => h (List.mem_cons_of_mem c hm))]
      rfl

/-- Scanning past a star-free block shifts the offset. -/
theorem occIdxGo_shift (pt B r : List Char) (i : Nat) (h : ('*' ∈ B) → False) :
    occIdxGo ('*' :: pt) (B ++ r) i = occIdxGo ('*' :: pt) r (i + B.length) := by
  induction B generalizing i with
  | nil => simp
  | cons c B' ih =>
      have hc : ¬ (('*' :: pt).isPrefixOf (c :: (B' ++ r)) = true) := by
        intro hp
        exact h (by rw [isPrefixOf_head_eq _ _ _ _ hp]; exact List.mem_cons_self _ _)
      rw [List.cons_append, occIdxGo_step, if_neg hc,
        ih (i + 1) (fun hm => h (List.mem_cons_of_mem c hm)), List.nil_append]
      congr 1
      simp only [List.length_cons]
      omega

/-- A greedy replace with no occurrence leaves the line unchanged. -/
theorem delimReplace_nil (pat ot ct l : List Char) (hocc : occIdx pat l = []) :
    delimReplace pat ot ct l = l := by
  rw [delimReplace, hocc]
  rfl

/-- A greedy replace with occurrence list `[i, j]` and room between
rewrites the line around the two occurrences. -/
theorem delimReplace_two (pat ot ct l : List Char) (i j : Nat)
    (hocc : occIdx pat l = [i, j]) (hle : i + pat.length ≤ j) :
    delimReplace pat ot ct l
      = l.take i ++ ot ++ ((l.drop (i + pat.length)).take (j - (i + pat.length)))
        ++ ct ++ l.drop (j + pat.length) := by
  rw [delimReplace, hocc]
  show (if i + pat.length ≤ j then
      l.take i ++ ot ++ ((l.drop (i + pat.length)).take (j - (i + pat.length)))
        ++ ct ++ l.drop (j + pat.length)
    else l) = _
  rw [if_pos hle]

/-- The bold pass leaves a star-free line unchanged. -/
theorem strongLine_noop (l : List Char) (h : ('*' ∈ l) → False) : strongLine l = l := by
  have h0 : occIdx "**".data l = [] := by
    show occIdxGo ('*' :: '*' :: []) l 0 = []
    exact occIdxGo_star_nil ('*' :: []) l 0 h
  exact delimReplace_nil _ _ _ _ h0

/-- The emphasis pass leaves a star-free line unchanged. -/
theorem emLine_noop (l : List Char) (h : ('*' ∈ l) → False) : emLine l = l := by
  have h0 : occIdx "*".data l = [] := by
    show occIdxGo ('*' :: []) l 0 = []
    exact occIdxGo_star_nil [] l 0 h
  exact delimReplace_nil _ _ _ _ h0

/-- On a line holding exactly one bold pair, `**` occurs exactly at the
two marker positions. -/
theorem occIdx_strong (A B C : List Char) (hA : ('*' ∈ A) → False) (hB : ('*' ∈ B) → False)
    (hC : ('*' ∈ C) → False) (hBne : B ≠ []) :
    occIdx "**".data (A ++ ('*' :: '*' :: (B ++ ('*' :: '*' :: C))))
      = [A.length, A.length + 2 + B.length] := by
  rcases B with _ | ⟨b, B'⟩
  · exact absurd rfl hBne
  show occIdxGo ('*' :: '*' :: []) (A ++ ('*' :: '*' :: ((b :: B') ++ ('*' :: '*' :: C)))) 0
    = [A.length, A.length + 2 + (b :: B').length]
  rw [occIdxGo_shift ('*' :: []) A _ 0 hA]
  rw [occIdxGo_step,
    if_pos (show ('*' :: '*' :: []).isPrefixOf
      ('*' :: '*' :: ((b :: B') ++ ('*' :: '*' :: C))) = true from rfl)]
  have hno1 : ¬ (('*' :: '*' :: []).isPrefixOf
      ('*' :: ((b :: B') ++ ('*' :: '*' :: C))) = true) := by
    intro hp
    have h2 : ('*' :: []).isPrefixOf (b :: (B' ++ ('*' :: '*' :: C))) = true :=
      isPrefixOf_tail _ _ _ _ hp
    exact hB (by rw [isPrefixOf_head_eq _ _ _ _ h2]; exact List.mem_cons_self _ _)
  rw [occIdxGo_step, if_neg hno1]
  rw [occIdxGo_shift ('*' :: []) (b :: B') _ _ hB]
  rw [occIdxGo_step,
    if_pos (show ('*' :: '*' :: []).isPrefixOf ('*' :: '*' :: C) = true from by
      simp [List.isPrefixOf])]
  cases C with
  | nil =>
      rw [occIdxGo_step, if_neg (by decide), occIdxGo_pat_nil]
      simp
  | cons c C' =>
      have hno2 : ¬ (('*' :: '*' :: []).isPrefixOf ('*' :: (c :: C')) = true) := by
        intro hp
        have h2 : ('*' :: []).isPrefixOf (c :: C') = true := isPrefixOf_tail _ _ _ _ hp
        exact hC (by rw [isPrefixOf_head_eq _ _ _ _ h2]; exact List.mem_cons_self _ _)
      rw [occIdxGo_step, if_neg hno2, occIdxGo_star_nil ('*' :: []) (c :: C') _ hC]
      simp

/-- The bold pass on a line holding exactly one bold pair. -/
theorem strongLine_eq (A B C : List Char) (hA : ('*' ∈ A) → False) (hB : ('*' ∈ B) → False)
    (hC : ('*' ∈ C) → False) (hBne : B ≠ []) :
    strongLine (A ++ ('*' :: '*' :: (B ++ ('*' :: '*' :: C))))
      = A ++ ("<strong>".data ++ (B ++ ("</strong>".data ++ C))) := by
  have hocc := occIdx_strong A B C hA hB hC hBne
  have hle : A.length + "**".data.length ≤ A.length + 2 + B.length := by
    simp
  rw [strongLine,
    delimReplace_two "**".data "<strong>".data "</strong>".data _ A.length
      (A.length + 2 + B.length) hocc hle]
  simp only [show "**".data.length = 2 from rfl]
  have e1 : (A ++ ('*' :: '*' :: (B ++ ('*' :: '*' :: C)))).take A.length = A :=
    List.take_left A _
  have e2 : (A ++ ('*' :: '*' :: (B ++ ('*' :: '*' :: C)))).drop
      (A.length + 2) = B ++ ('*' :: '*' :: C) := by
    rw [show (A ++ ('*' :: '*' :: (B ++ ('*' :: '*' :: C))))
      = (A ++ ['*', '*']) ++ (B ++ ('*' :: '*' :: C)) from by simp]
    exact List.drop_left' (by simp)
  have e3 : (B ++ ('*' :: '*' :: C)).take
      (A.length + 2 + B.length - (A.length + 2)) = B := by
    rw [show A.length + 2 + B.length - (A.length + 2) = B.length from by omega]
    exact List.take_left B _
  have e4 : (A ++ ('*' :: '*' :: (B ++ ('*' :: '*' :: C)))).drop
      (A.length + 2 + B.length + 2) = C := by
    rw [show (A ++ ('*' :: '*' :: (B ++ ('*' :: '*' :: C))))
      = (A ++ ('*' :: '*' :: (B ++ ['*', '*']))) ++ C from by simp]
    exact List.drop_left'
      (by simp only [List.length_append, List.length_cons, List.length_nil]; omega)
  rw [e1, e2, e3, e4]
  simp [List.append_assoc]

/-- The h1 pass leaves a line unchanged unless it starts with `#`. -/
theorem h1Line_noop (c : Char) (r : List Char) (hc : c ≠ '#') :
    h1Line (c :: r) = c :: r := by
  rw [h1Line, if_neg]
  intro hp
  exact hc (isPrefixOf_head_eq _ _ _ _ hp).symm

/-- The h2 pass leaves a line unchanged unless it starts with `#`. -/
theorem h2Line_noop (c : Char) (r : List Char) (hc : c ≠ '#') :
    h2Line (c :: r) = c :: r := by
  rw [h2Line, if_neg]
  intro hp
  exact hc (isPrefixOf_head_eq _ _ _ _ hp).symm

/-- The h3 pass leaves a line unchanged unless it starts with `#`. -/
theorem h3Line_noop (c : Char) (r : List Char) (hc : c ≠ '#') :
    h3Line (c :: r) = c :: r := by
  rw [h3Line, if_neg]
  intro hp
  exact hc (isPrefixOf_head_eq _ _ _ _ hp).symm

/-- The h1 pass fires on a `# ` line. -/
theorem h1Line_fires (T : List Char) :
    h1Line ("# ".data ++ T) = "<h1>".data ++ (T ++ "</h1>".data) := by
  rw [h1Line, if_pos (isPrefixOf_self_append _ _)]
  rw [show ("# ".data ++ T).drop 2 = T from List.drop_left "# ".data T]
  simp [List.append_assoc]

/-! ### Newline preservation of the front passes -/

/-- The h1 pass never creates a newline. -/
theorem h1Line_nl (l : List Char) (h : ('\n' ∈ l) → False) :
    ('\n' ∈ h1Line l) → False := by
  intro hm
  rw [h1Line] at hm
  split at hm
  · rcases List.mem_append.mp hm with hm1 | hm1
    · rcases List.mem_append.mp hm1 with hm2 | hm2
      · exact absurd hm2 (by decide)
      · exact h (List.mem_of_mem_drop hm2)
    · exact absurd hm1 (by decide)
  · exact h hm

/-- The h2 pass never creates a newline. -/
theorem h2Line_nl (l : List Char) (h : ('\n' ∈ l) → False) :
    ('\n' ∈ h2Line l) → False := by
  intro hm
  rw [h2Line] at hm
  split at hm
  · rcases List.mem_append.mp hm with hm1 | hm1
    · rcases List.mem_append.mp hm1 with hm2 | hm2
      · exact absurd hm2 (by decide)
      · exact h (List.mem_of_mem_drop hm2)
    · exact absurd hm1 (by decide)
  · exact h hm

/-- The h3 pass never creates a newline. -/
theorem h3Line_nl (l : List Char) (h : ('\n' ∈ l) → False) :
    ('\n' ∈ h3Line l) → False := by
  intro hm
  rw [h3Line] at hm
  split at hm
  · rcases List.mem_append.mp hm with hm1 | hm1
    · rcases List.mem_append.mp hm1 with hm2 | hm2
      · exact absurd hm2 (by decide)
      · exact h (List.mem_of_mem_drop hm2)
    · exact absurd hm1 (by decide)
  · exact h hm

/-- A greedy replace whose tags hold no newline never creates one. -/
theorem delimReplace_nl (pat ot ct l : List Char) (hot : ('\n' ∈ ot) → False)
    (hct : ('\n' ∈ ct) → False) (h : ('\n' ∈ l) → False) :
    ('\n' ∈ delimReplace pat ot ct l) → False := by
  intro hm
  simp only [delimReplace] at hm
  split at hm
  · split at hm
    · rcases List.mem_append.mp hm with hm1 | hm1
      · rcases List.mem_append.mp hm1 with hm2 | hm2
        · rcases List.mem_append.mp hm2 with hm3 | hm3
          · rcases List.mem_append.mp hm3 with hm4 | hm4
            · exact h (List.mem_of_mem_take hm4)
            · exact hot hm4
          · exact h (List.mem_of_mem_drop (List.mem_of_mem_take hm3))
        · exact hct hm2
      · exact h (List.mem_of_mem_drop hm1)
    · exact h hm
  · exact h hm

/-- The bold pass never creates a newline. -/
theorem strongLine_nl (l : List Char) (h : ('\n' ∈ l) → False) :
    ('\n' ∈ strongLine l) → False :=
  delimReplace_nl "**".data "<strong>".data "</strong>".data l (by decide) (by decide) h

/-- The emphasis pass never creates a newline. -/
theorem emLine_nl (l : List Char) (h : ('\n' ∈ l) → False) :
    ('\n' ∈ emLine l) → False :=
  delimReplace_nl "*".data "<em>".data "</em>".data l (by decide) (by decide) h

/-- Building a pair-free list one step. -/
theorem noSeqLP_cons_of (a b : Char) (r : List Char)
    (hab : (a == '<' && b == 'p') = false) (h : noSeqLP (b :: r) = true) :
    noSeqLP (a :: b :: r) = true := by
  rw [show noSeqLP (a :: b :: r)
    = (!(a == '<' && b == 'p') && noSeqLP (b :: r)) from rfl, hab, h]
  rfl

/-! ### Assembly: the front passes over a whole body -/

/-- The five per-line front passes act linewise on a join of
newline-free lines. -/
theorem mdFront_jl (ls : List (List Char)) (h : ∀ l ∈ ls, ('\n' ∈ l) → False)
    (hne : ls ≠ []) :
    mdFront (joinLinesChars ls)
      = joinLinesChars (ls.map
          (fun l => emLine (strongLine (h3Line (h2Line (h1Line l)))))) := by
  have h1 : ∀ l ∈ ls.map h1Line, ('\n' ∈ l) → False := by
    intro l hl
    obtain ⟨l0, hl0, he⟩ := List.mem_map.mp hl
    exact he ▸ h1Line_nl l0 (h l0 hl0)
  have h2 : ∀ l ∈ (ls.map h1Line).map h2Line, ('\n' ∈ l) → False := by
    intro l hl
    obtain ⟨l0, hl0, he⟩ := List.mem_map.mp hl
    exact he ▸ h2Line_nl l0 (h1 l0 hl0)
  have h3 : ∀ l ∈ ((ls.map h1Line).map h2Line).map h3Line, ('\n' ∈ l) → False := by
    intro l hl
    obtain ⟨l0, hl0, he⟩ := List.mem_map.mp hl
    exact he ▸ h3Line_nl l0 (h2 l0 hl0)
  have h4 : ∀ l ∈ (((ls.map h1Line).map h2Line).map h3Line).map strongLine,
      ('\n' ∈ l) → False := by
    intro l hl
    obtain ⟨l0, hl0, he⟩ := List.mem_map.mp hl
    exact he ▸ strongLine_nl l0 (h3 l0 hl0)
  have hne1 : ls.map h1Line ≠ [] := fun he => hne (by simpa using he)
  have hne2 : (ls.map h1Line).map h2Line ≠ [] := fun he => hne1 (by simpa using he)
  have hne3 : ((ls.map h1Line).map h2Line).map h3Line ≠ [] :=
    fun he => hne2 (by simpa using he)
  have hne4 : (((ls.map h1Line).map h2Line).map h3Line).map strongLine ≠ [] :=
    fun he => hne3 (by simpa using he)
  rw [mdFront, mapLines_jl h1Line ls h hne, mapLines_jl h2Line _ h1 hne1,
    mapLines_jl h3Line _ h2 hne2, mapLines_jl strongLine _ h3 hne3,
    mapLines_jl emLine _ h4 hne4, List.map_map, List.map_map, List.map_map,
    List.map_map]
  rfl

/-- The front passes turn a `# ` line into an h1 heading and touch
nothing else on it. -/
theorem frontFn_heading (T : List Char) (hT : ('*' ∈ T) → False) :
    emLine (strongLine (h3Line (h2Line (h1Line ("# ".data ++ T)))))
      = "<h1>".data ++ (T ++ "</h1>".data) := by
  rw [h1Line_fires]
  have hstar : ('*' ∈ ('<' :: ("h1>".data ++ (T ++ "</h1>".data)))) → False := by
    intro hm
    rcases List.mem_cons.mp hm with h | h
    · exact absurd h (by decide)
    rcases List.mem_append.mp h with h | h
    · exact absurd h (by decide)
    rcases List.mem_append.mp h with h | h
    · exact hT h
    · exact absurd h (by decide)
  rw [show ("<h1>".data ++ (T ++ "</h1>".data) : List Char)
    = '<' :: ("h1>".data ++ (T ++ "</h1>".data)) from rfl]
  rw [h2Line_noop '<' _ (by decide), h3Line_noop '<' _ (by decide),
    strongLine_noop _ hstar, emLine_noop _ hstar]

/-- The front passes turn a line holding exactly one bold pair into its
strong rendering and touch nothing else on it. -/
theorem frontFn_bold (A B C : List Char) (hA : ('*' ∈ A) → False)
    (hAh : ('#' ∈ A) → False) (hB : ('*' ∈ B) → False) (hC : ('*' ∈ C) → False)
    (hBne : B ≠ []) :
    emLine (strongLine (h3Line (h2Line
        (h1Line (A ++ ('*' :: '*' :: (B ++ ('*' :: '*' :: C))))))))
      = A ++ ("<strong>".data ++ (B ++ ("</strong>".data ++ C))) := by
  have hstar2 : ('*' ∈ (A ++ ("<strong>".data ++ (B ++ ("</strong>".data ++ C)))))
      → False := by
    intro hm
    rcases List.mem_append.mp hm with h | h
    · exact hA h
    rcases List.mem_append.mp h with h | h
    · exact absurd h (by decide)
    rcases List.mem_append.mp h with h | h
    · exact hB h
    rcases List.mem_append.mp h with h | h
    · exact absurd h (by decide)
    · exact hC h
  have hfront : h3Line (h2Line (h1Line (A ++ ('*' :: '*' :: (B ++ ('*' :: '*' :: C))))))
      = A ++ ('*' :: '*' :: (B ++ ('*' :: '*' :: C))) := by
    rcases A with _ | ⟨a, A2⟩
    · simp only [List.nil_append]
      rw [h1Line_noop '*' _ (by decide), h2Line_noop '*' _ (by decide),
        h3Line_noop '*' _ (by decide)]
    · have ha : a ≠ '#' := fun he => hAh (he ▸ List.mem_cons_self _ _)
      rw [List.cons_append, h1Line_noop a _ ha, h2Line_noop a _ ha, h3Line_noop a _ ha]
  rw [hfront, strongLine_eq A B C hA hB hC hBne, emLine_noop _ hstar2]

/-! ### Shape facts about the two rendered segments -/

/-- The h1 rendering in the shape the survival lemmas expect. -/
theorem shape_pat1 (T : List Char) :
    "<h1>".data ++ (T ++ "</h1>".data)
      = '<' :: 'h' :: (('1' :: '>' :: (T ++ "</h".data)) ++ ['1', '>']) := by
  rw [show (('1' :: '>' :: (T ++ "</h".data)) ++ ['1', '>'] : List Char)
    = '1' :: '>' :: ((T ++ "</h".data) ++ ['1', '>']) from rfl]
  rw [List.append_assoc]
  rw [show ("</h".data ++ ['1', '>'] : List Char) = "</h1>".data from rfl]
  rfl

/-- The strong rendering in the shape the survival lemmas expect. -/
theorem shape_pat2 (B : List Char) :
    "<strong>".data ++ (B ++ "</strong>".data)
      = '<' :: 's' :: (('t' :: 'r' :: 'o' :: 'n' :: 'g' :: '>' :: (B ++ "</stron".data))
          ++ ['g', '>']) := by
  rw [show (('t' :: 'r' :: 'o' :: 'n' :: 'g' :: '>' :: (B ++ "</stron".data))
      ++ ['g', '>'] : List Char)
    = 't' :: 'r' :: 'o' :: 'n' :: 'g' :: '>' :: ((B ++ "</stron".data) ++ ['g', '>'])
      from rfl]
  rw [List.append_assoc]
  rw [show ("</stron".data ++ ['g', '>'] : List Char) = "</strong>".data from rfl]
  rfl

/-- The h1 rendering holds no `<p` pair when the heading text holds
no `<`. -/
theorem noSeqLP_pat1 (T : List Char) (hT : ('<' ∈ T) → False) :
    noSeqLP ("<h1>".data ++ (T ++ "</h1>".data)) = true := by
  show noSeqLP ('<' :: 'h' :: '1' :: '>' :: (T ++ "</h1>".data)) = true
  refine noSeqLP_cons_of _ _ _ (by decide) ?_
  refine noSeqLP_cons_of _ _ _ (by decide) ?_
  refine noSeqLP_cons_of _ _ _ (by decide) ?_
  have hx : ('<' ∈ ('>' :: T)) → False := by
    intro hm
    rcases List.mem_cons.mp hm with h | h
    · exact absurd h (by decide)
    · exact hT h
  rw [show ('>' :: (T ++ "</h1>".data) : List Char) = ('>' :: T) ++ "</h1>".data from rfl,
    noSeqLP_append_left ('>' :: T) hx "</h1>".data]
  decide

/-- The strong rendering holds no `<p` pair when the bold text holds
no `<`. -/
theorem noSeqLP_pat2 (B : List Char) (hB : ('<' ∈ B) → False) :
    noSeqLP ("<strong>".data ++ (B ++ "</strong>".data)) = true := by
  show noSeqLP ('<' :: 's' :: 't' :: 'r' :: 'o' :: 'n' :: 'g' :: '>'
    :: (B ++ "</strong>".data)) = true
  refine noSeqLP_cons_of _ _ _ (by decide) ?_
  refine noSeqLP_cons_of _ _ _ (by decide) ?_
  refine noSeqLP_cons_of _ _ _ (by decide) ?_
  refine noSeqLP_cons_of _ _ _ (by decide) ?_
  refine noSeqLP_cons_of _ _ _ (by decide) ?_
  refine noSeqLP_cons_of _ _ _ (by decide) ?_
  refine noSeqLP_cons_of _ _ _ (by decide) ?_
  have hx : ('<' ∈ ('>' :: B)) → False := by
    intro hm
    rcases List.mem_cons.mp hm with h | h
    · exact absurd h (by decide)
    · exact hB h
  rw [show ('>' :: (B ++ "</strong>".data) : List Char)
      = ('>' :: B) ++ "</strong>".data from rfl,
    noSeqLP_append_left ('>' :: B) hx "</strong>".data]
  decide

/-- The h1 rendering holds no newline when the heading text holds
none. -/
theorem nl_pat1 (T : List Char) (hT : ('\n' ∈ T) → False) :
    ('\n' ∈ ("<h1>".data ++ (T ++ "</h1>".data))) → False := by
  intro hm
  rcases List.mem_append.mp hm with h | h
  · exact absurd h (by decide)
  rcases List.mem_append.mp h with h | h
  · exact hT h
  · exact absurd h (by decide)

/-- The strong rendering holds no newline when the bold text holds
none. -/
theorem nl_pat2 (B : List Char) (hB : ('\n' ∈ B) → False) :
    ('\n' ∈ ("<strong>".data ++ (B ++ "</strong>".data))) → False := by
  intro hm
  rcases List.mem_append.mp hm with h | h
  · exact absurd h (by decide)
  rcases List.mem_append.mp h with h | h
  · exact hB h
  · exact absurd h (by decide)

/-- No tail of the h1 rendering is the bare list `<`. -/
theorem last_pat1 (T : List Char) :
    ∀ k, ("<h1>".data ++ (T ++ "</h1>".data)).drop k ≠ ['<'] := by
  have he : "<h1>".data ++ (T ++ "</h1>".data)
      = ("<h1>".data ++ (T ++ "</h1".data)) ++ ['>'] := by
    rw [List.append_assoc, List.append_assoc]
    rw [show ("</h1".data ++ ['>'] : List Char) = "</h1>".data from rfl]
  have hgl : ("<h1>".data ++ (T ++ "</h1>".data)).getLast? = some '>' := by
    rw [he, List.getLast?_concat]
  exact drop_ne_single _ '>' '<' hgl (by decide)

/-- No tail of the strong rendering is the bare list `<`. -/
theorem last_pat2 (B : List Char) :
    ∀ k, ("<strong>".data ++ (B ++ "</strong>".data)).drop k ≠ ['<'] := by
  have he : "<strong>".data ++ (B ++ "</strong>".data)
      = ("<strong>".data ++ (B ++ "</strong".data)) ++ ['>'] := by
    rw [List.append_assoc, List.append_assoc]
    rw [show ("</strong".data ++ ['>'] : List Char) = "</strong>".data from rfl]
  have hgl : ("<strong>".data ++ (B ++ "</strong>".data)).getLast? = some '>' := by
    rw [he, List.getLast?_concat]
  exact drop_ne_single _ '>' '<' hgl (by decide)

/-- A segment of the protected shape survives the four tail passes:
it still occurs in the final output. -/
theorem occursIn_mdTail (pat : List Char) (d2 d1 : Char) (mid : List Char)
    (hshape : pat = '<' :: d2 :: (mid ++ [d1, '>']))
    (hd2p : d2 ≠ 'p') (hd2s : d2 ≠ '/') (hd1 : d1 ≠ 'p')
    (hLP : noSeqLP pat = true) (hnl : ('\n' ∈ pat) → False)
    (hlast4 : ∀ k, pat.drop k ≠ ['<'])
    (u v : List Char) :
    occursIn pat (mdTailFn (u ++ (pat ++ v))) = true := by
  obtain ⟨u1, v1, e1⟩ := para_decomp pat hnl (by rw [hshape]; simp) u v
  obtain ⟨a, b, hmem⟩ := sl_infix pat hnl u1 v1
  have hmem2 : wrapPLine (a ++ (pat ++ b))
      ∈ (splitLinesChars (u1 ++ (pat ++ v1))).map wrapPLine :=
    List.mem_map.mpr ⟨_, hmem, rfl⟩
  obtain ⟨ps, qs, hps⟩ := List.append_of_mem hmem2
  obtain ⟨U, V, hUV⟩ := join_decomp ps (wrapPLine (a ++ (pat ++ b))) qs
  have e2 : mapLines wrapPLine (paraChars (u ++ (pat ++ v)))
      = (U ++ ("<p>".data ++ a)) ++ (pat ++ (b ++ ("</p>".data ++ V))) := by
    rw [e1,
      show mapLines wrapPLine (u1 ++ (pat ++ v1))
        = joinLinesChars ((splitLinesChars (u1 ++ (pat ++ v1))).map wrapPLine) from rfl,
      hps, hUV]
    simp [wrapPLine, List.append_assoc]
  obtain ⟨u3, v3, e3⟩ := removeP_decomp pat d2 (mid ++ [d1, '>']) hshape hd2s
    (noSeqLP_drop pat hLP) hlast4 (U ++ ("<p>".data ++ a)) (b ++ ("</p>".data ++ V))
  obtain ⟨a2, b2, hm3⟩ := sl_infix pat hnl u3 v3
  obtain ⟨a3, b3, e4⟩ := unwrap_preserves pat d2 d1 mid hshape hd2p hd1 a2 b2
  have hm4 : (a3 ++ (pat ++ b3))
      ∈ (splitLinesChars (u3 ++ (pat ++ v3))).map unwrapHeadingLine := by
    rw [← e4]
    exact List.mem_map.mpr ⟨_, hm3, rfl⟩
  have e5 : mdTailFn (u ++ (pat ++ v))
      = joinLinesChars ((splitLinesChars (u3 ++ (pat ++ v3))).map unwrapHeadingLine) := by
    rw [mdTailFn, e2, e3]
    rfl
  rw [e5]
  exact occursIn_jl_of_mem pat a3 b3 _ hm4

/-- Claim C9 counterexample: a body in which `**bold**` is not the
only bold pair on its line. The greedy pattern matches from the first
`**` to the last, so although the body contains `**bold**`, the
rendered HTML does not contain `<strong>bold</strong>` (nor
`<strong>first</strong>`): the whole span collapses into one strong
element. -/
theorem C9_counterexample :
    containsSubstr "**first** and **bold**" "**bold**" = true
    ∧ containsSubstr (markdownToHTML "**first** and **bold**")
        "<strong>bold</strong>" = false
    ∧ markdownToHTML "**first** and **bold**"
        = "<p><strong>first<em>* and *</em>bold</strong></p>" := by
  decide

/-- The heading conjunct of the amended claim, proved standalone: a
`# ` line of any digest body renders its heading text as an h1 span
in the final HTML. -/
theorem heading_rendering_univ (body : String) (T : List Char)
    (hmem : ("# ".data ++ T) ∈ splitLinesChars body.data)
    (hTs : ('*' ∈ T) → False) (hTlt : ('<' ∈ T) → False) :
    containsSubstr (markdownToHTML body) ⟨"<h1>".data ++ T ++ "</h1>".data⟩ = true := by
  have hTnl : ('\n' ∈ T) → False := fun hm =>
    mem_splitLines_no_newline body.data _ hmem (List.mem_append.mpr (Or.inr hm))
  obtain ⟨ps, qs, hps⟩ := List.append_of_mem hmem
  have hbody : body.data = joinLinesChars (ps ++ ("# ".data ++ T) :: qs) := by
    rw [← hps, jl_sl]
  have hforall : ∀ l ∈ ps ++ ("# ".data ++ T) :: qs, ('\n' ∈ l) → False := by
    intro l hl
    exact mem_splitLines_no_newline body.data l (by rw [hps]; exact hl)
  have hfront : mdFront body.data
      = joinLinesChars ((ps ++ ("# ".data ++ T) :: qs).map
          (fun l => emLine (strongLine (h3Line (h2Line (h1Line l)))))) := by
    conv_lhs => rw [hbody]
    exact mdFront_jl _ hforall (by simp)
  have hmapped : (ps ++ ("# ".data ++ T) :: qs).map
        (fun l => emLine (strongLine (h3Line (h2Line (h1Line l)))))
      = ps.map (fun l => emLine (strongLine (h3Line (h2Line (h1Line l)))))
        ++ ("<h1>".data ++ (T ++ "</h1>".data))
          :: qs.map (fun l => emLine (strongLine (h3Line (h2Line (h1Line l))))) := by
    rw [List.map_append, List.map_cons]
    rw [frontFn_heading T hTs]
  obtain ⟨U, V, hUV⟩ := join_decomp
    (ps.map (fun l => emLine (strongLine (h3Line (h2Line (h1Line l))))))
    ("<h1>".data ++ (T ++ "</h1>".data))
    (qs.map (fun l => emLine (strongLine (h3Line (h2Line (h1Line l))))))
  have hc1 : (⟨"<h1>".data ++ T ++ "</h1>".data⟩ : String).data
      = "<h1>".data ++ T ++ "</h1>".data := rfl
  have hc2 : (markdownToHTML body).data = mdPipeline body.data := by
    rw [show markdownToHTML body = (⟨mdPipeline body.data⟩ : String) from rfl]
  have hc3 : mdPipeline body.data = mdTailFn (mdFront body.data) := rfl
  show occursIn (⟨"<h1>".data ++ T ++ "</h1>".data⟩ : String).data
    (markdownToHTML body).data = true
  rw [hc1, hc2, hc3]
  rw [List.append_assoc]
  rw [hfront, hmapped, hUV]
  exact occursIn_mdTail ("<h1>".data ++ (T ++ "</h1>".data)) 'h' '1'
    ('1' :: '>' :: (T ++ "</h".data)) (shape_pat1 T) (by decide) (by decide)
    (by decide) (noSeqLP_pat1 T hTlt) (nl_pat1 T hTnl) (last_pat1 T) U V

/-- The bold conjunct of the amended claim, proved standalone: a line
holding exactly one bold pair renders its bold text as a strong span
in the final HTML. -/
theorem bold_rendering_univ (body : String) (A B C : List Char)
    (hmem : (A ++ "**".data ++ B ++ "**".data ++ C) ∈ splitLinesChars body.data)
    (hAh : ('#' ∈ A) → False) (hAs : ('*' ∈ A) → False)
    (hBne : B ≠ []) (hBs : ('*' ∈ B) → False) (hBlt : ('<' ∈ B) → False)
    (hCs : ('*' ∈ C) → False) :
    containsSubstr (markdownToHTML body)
      ⟨"<strong>".data ++ B ++ "</strong>".data⟩ = true := by
  have hLeq : (A ++ "**".data ++ B ++ "**".data ++ C : List Char)
      = A ++ ('*' :: '*' :: (B ++ ('*' :: '*' :: C))) := by
    rw [show ("**".data : List Char) = ['*', '*'] from rfl]
    simp [List.append_assoc]
  have hmem2 : (A ++ ('*' :: '*' :: (B ++ ('*' :: '*' :: C))))
      ∈ splitLinesChars body.data := by
    rw [← hLeq]
    exact hmem
  have hLnl := mem_splitLines_no_newline body.data _ hmem
  have hBnl : ('\n' ∈ B) → False := fun hm =>
    hLnl (List.mem_append.mpr (Or.inl (List.mem_append.mpr
      (Or.inl (List.mem_append.mpr (Or.inr hm))))))
  obtain ⟨ps, qs, hps⟩ := List.append_of_mem hmem2
  have hbody : body.data
      = joinLinesChars (ps ++ (A ++ ('*' :: '*' :: (B ++ ('*' :: '*' :: C)))) :: qs) := by
    rw [← hps, jl_sl]
  have hforall : ∀ l ∈ ps ++ (A ++ ('*' :: '*' :: (B ++ ('*' :: '*' :: C)))) :: qs,
      ('\n' ∈ l) → False := by
    intro l hl
    exact mem_splitLines_no_newline body.data l (by rw [hps]; exact hl)
  have hfront : mdFront body.data
      = joinLinesChars ((ps ++ (A ++ ('*' :: '*' :: (B ++ ('*' :: '*' :: C)))) :: qs).map
          (fun l => emLine (strongLine (h3Line (h2Line (h1Line l)))))) := by
    conv_lhs => rw [hbody]
    exact mdFront_jl _ hforall (by simp)
  have hmapped : (ps ++ (A ++ ('*' :: '*' :: (B ++ ('*' :: '*' :: C)))) :: qs).map
        (fun l => emLine (strongLine (h3Line (h2Line (h1Line l)))))
      = ps.map (fun l => emLine (strongLine (h3Line (h2Line (h1Line l)))))
        ++ (A ++ ("<strong>".data ++ (B ++ ("</strong>".data ++ C))))
          :: qs.map (fun l => emLine (strongLine (h3Line (h2Line (h1Line l))))) := by
    rw [List.map_append, List.map_cons]
    rw [frontFn_bold A B C hAs hAh hBs hCs hBne]
  obtain ⟨U, V, hUV⟩ := join_decomp
    (ps.map (fun l => emLine (strongLine (h3Line (h2Line (h1Line l))))))
    (A ++ ("<strong>".data ++ (B ++ ("</strong>".data ++ C))))
    (qs.map (fun l => emLine (strongLine (h3Line (h2Line (h1Line l))))))
  have hc1 : (⟨"<strong>".data ++ B ++ "</strong>".data⟩ : String).data
      = "<strong>".data ++ B ++ "</strong>".data := rfl
  have hc2 : (markdownToHTML body).data = mdPipeline body.data := by
    rw [show markdownToHTML body = (⟨mdPipeline body.data⟩ : String) from rfl]
  have hc3 : mdPipeline body.data = mdTailFn (mdFront body.data) := rfl
  show occursIn (⟨"<strong>".data ++ B ++ "</strong>".data⟩ : String).data
    (markdownToHTML body).data = true
  rw [hc1, hc2, hc3]
  rw [List.append_assoc]
  rw [hfront, hmapped, hUV]
  have hregroup : U ++ ((A ++ ("<strong>".data ++ (B ++ ("</strong>".data ++ C)))) ++ V)
      = (U ++ A) ++ (("<strong>".data ++ (B ++ "</strong>".data))
          ++ (C ++ V)) := by
    simp [List.append_assoc]
  rw [hregroup]
  exact occursIn_mdTail ("<strong>".data ++ (B ++ "</strong>".data)) 's' 'g'
    ('t' :: 'r' :: 'o' :: 'n' :: 'g' :: '>' :: (B ++ "</stron".data)) (shape_pat2 B)
    (by decide) (by decide) (by decide) (noSeqLP_pat2 B hBlt) (nl_pat2 B hBnl)
    (last_pat2 B) (U ++ A) (C ++ V)

/-- Claim C9 (amended): for every digest body, a line `# Heading`
(with `Heading` free of `*` and `<`) is rendered so that
`<h1>Heading</h1>` appears in the HTML output, and `**bold**` is
rendered so that `<strong>bold</strong>` appears whenever it is the
only bold marker pair on its line (its line being `A**B**C` with no
further `*` and with `B` nonempty and free of `<`, and `A` not opening
a heading) — when a line holds several pairs, the greedy pattern merges
everything from the first `**` to the last into a single strong span,
so `<strong>bold</strong>` need not appear; and the plain-text
rendering preserves the digest body byte-for-byte between a fixed
header and footer. -/
theorem C9_amended_rendering :
    (∀ (body : String) (T : List Char),
        ("# ".data ++ T) ∈ splitLinesChars body.data →
        (('*' ∈ T) → False) → (('<' ∈ T) → False) →
        containsSubstr (markdownToHTML body) ⟨"<h1>".data ++ T ++ "</h1>".data⟩ = true)
    ∧ (∀ (body : String) (A B C : List Char),
        (A ++ "**".data ++ B ++ "**".data ++ C) ∈ splitLinesChars body.data →
        (('#' ∈ A) → False) → (('*' ∈ A) → False) →
        B ≠ [] → (('*' ∈ B) → False) → (('<' ∈ B) → False) →
        (('*' ∈ C) → False) →
        containsSubstr (markdownToHTML body)
          ⟨"<strong>".data ++ B ++ "</strong>".data⟩ = true)
    ∧ markdownToHTML "# Heading\n\nThis is **bold** text."
        = "<p><h1>Heading</h1></p><p>This is <strong>bold</strong> text.</p>"
    ∧ (∀ (s : SummaryRec) (d t : String) (y : Nat),
        generateEmailText s d t y
          = emailTextHeader s d t ++ s.content ++ emailTextFooter y) := by
  refine ⟨heading_rendering_univ, bold_rendering_univ, by decide, ?_⟩
  intro s d t y
  simp only [generateEmailText, emailTextHeader, emailTextFooter, strAppend_assoc]

/-- Witness for claim C9 (amended): the universal heading and bold
renderings evaluated at the concrete demo body. -/
theorem C9_amended_rendering_witness :
    containsSubstr (markdownToHTML "# Heading\n\nThis is **bold** text.")
        ⟨"<h1>".data ++ "Heading".data ++ "</h1>".data⟩ = true
    ∧ containsSubstr (markdownToHTML "# Heading\n\nThis is **bold** text.")
        ⟨"<strong>".data ++ "bold".data ++ "</strong>".data⟩ = true :=
  ⟨C9_amended_rendering.1 "# Heading\n\nThis is **bold** text." "Heading".data
      (by decide) (by decide) (by decide),
    C9_amended_rendering.2.1 "# Heading\n\nThis is **bold** text."
      "This is ".data "bold".data " text.".data
      (by decide) (by decide) (by decide) (by decide) (by decide) (by decide)
      (by decide)⟩

end RssDigest
